import Mathlib

/-!
Verification development for the `jsonpath` Go package.

The Go sources are shallowly embedded as executable Lean definitions:

* JSON documents (`interface{}` trees produced by `encoding/json`) become the
  inductive `JValue`; Go `map[string]interface{}` is modelled as an ordered
  association list with unique keys (Go map iteration order is
  non-deterministic, the model fixes insertion order; no verified property
  depends on the order of map keys).
* pointers into the document (`*interface{}` fields of footprints) become
  paths (`List JStep`) resolved against the current document, the
  "path-vector" reading of the same aliasing structure: a write through a
  pointer is a write at the path, and every dereference re-resolves the
  path against the current document.  This is observationally equivalent for
  the operations the evaluator performs, because the evaluator always
  enforces/mutates before it expands.
* the evaluator and the parser are given a fuel parameter to make the
  recursion structural; fuel exhaustion yields a distinguished error that
  none of the verified runs hits (for loops whose bound matters, a
  stability lemma shows the chosen fuel is enough).

Machine integers (`int`) are modelled as `Int`; the Go code never relies on
wrap-around for these values.
-/

/-- JSON value, the image of Go `interface{}` after `encoding/json`
unmarshalling: `nil`, `bool`, numbers, `string`, `[]interface{}`,
`map[string]interface{}`. Go unmarshals every JSON number to `float64`; the
model keeps `jint`/`jfloat` separate because the evaluator's literal nodes
(`IntNode`, `FloatNode`) carry `int` and `float64` respectively.  `jfloat`
carries a rational stand-in for the `float64` payload; no verified claim
depends on floating-point arithmetic. -/
inductive JValue where
  | null : JValue
  | jbool (b : Bool) : JValue
  | jint (n : Int) : JValue
  | jfloat (q : Rat) : JValue
  | jstr (s : String) : JValue
  | jarr (elems : List JValue) : JValue
  | jobj (entries : List (String × JValue)) : JValue

instance : Inhabited JValue := ⟨JValue.null⟩

/-- One step of a path into a `JValue`: a map key or an array index. -/
inductive JStep where
  | key (k : String) : JStep
  | idx (i : Nat) : JStep
  deriving Repr, DecidableEq

/-- Association-list lookup for the `jobj` model of Go maps
(`m[k]`, comma-ok form: `none` when the key is absent). -/
def objGet (entries : List (String × JValue)) (k : String) : Option JValue :=
  match entries with
  | [] => none
  | (k', v) :: rest => if k' = k then some v else objGet rest k

/-- Go map assignment `m[k] = v`: replaces the binding if the key exists,
otherwise inserts it (at the end, matching the insertion-order model). -/
def objSet (entries : List (String × JValue)) (k : String) (v : JValue) :
    List (String × JValue) :=
  match entries with
  | [] => [(k, v)]
  | (k', v') :: rest =>
      if k' = k then (k', v) :: rest else (k', v') :: objSet rest k v

/-- Go slice indexing `a[i]` (in-range reads only; the evaluator never reads
out of range, `none` models the impossible panic). -/
def arrGet (elems : List JValue) (i : Nat) : Option JValue := elems.get? i

/-- Go slice element assignment `a[i] = v` (no-op when out of range, which
the evaluator never does). -/
def arrSet (elems : List JValue) (i : Nat) (v : JValue) : List JValue :=
  elems.set i v

/-- Resolve one path step against a value (`none` when the container kind or
the key/index does not match: the model of a failing Go type assertion or
missing key). -/
def stepGet (v : JValue) (s : JStep) : Option JValue :=
  match v, s with
  | .jobj es, .key k => objGet es k
  | .jarr xs, .idx i => arrGet xs i
  | _, _ => none

/-- Resolve a whole path: the model of dereferencing a stored
`*interface{}`. -/
def pathGet (v : JValue) : List JStep → Option JValue
  | [] => some v
  | s :: rest =>
      match stepGet v s with
      | some child => pathGet child rest
      | none => none

/-- Write one path step (the model of a write through an aliased container:
`m[k] = x` inserts into maps, `a[i] = x` stores in range). -/
def stepSet (v : JValue) (s : JStep) (x : JValue) : JValue :=
  match v, s with
  | .jobj es, .key k => .jobj (objSet es k x)
  | .jarr xs, .idx i => .jarr (arrSet xs i x)
  | v, _ => v

/-- Write at the end of a path, leaving the value unchanged when the path
does not resolve (a situation the evaluator's invariants exclude). -/
def pathSet (v : JValue) (p : List JStep) (x : JValue) : JValue :=
  match p with
  | [] => x
  | s :: rest =>
      match stepGet v s with
      | some child => stepSet v s (pathSet child rest x)
      | none => v

/-- `ParamsEntry` from the AST node model: one slice parameter.  `Value` is
the integer, `Known` records whether it was written at all, `Derived` is
carried but never read by the evaluator. -/
structure ParamsEntry where
  Value : Int
  Known : Bool
  Derived : Bool
  deriving Repr, DecidableEq

/-- The four values `inferArrayNode` (handlers.go) returns for a slice
node: loop start, loop bound, increment, and direction flag. -/
structure SliceBounds where
  base : Int
  limit : Int
  step : Int
  needInvert : Bool
  deriving Repr, DecidableEq

/-- `inferArrayNode` from handlers.go, three-parameter (slice) branch, with
`L = len(arr)`.  (The Go function also has a legacy single-parameter branch,
unreachable here because an `ArrayNode` built by the parser always carries
exactly three `ParamsEntry`s, which this embedding takes as three separate
arguments.)  The Go code computes the clamp chain for `base` and `limit`
unconditionally and then overwrites the result when the parameter is
unknown; the `let` structure below mirrors that order. -/
def inferArrayNode (L : Int) (x y z : ParamsEntry) : SliceBounds :=
  let step1 : Int := if z.Known then z.Value else 0
  let step : Int := if step1 = 0 then 1 else step1
  let needInvert : Bool := if step1 = 0 then false else decide (step1 < 0)
  let base1 : Int :=
    if x.Value > L - 1 then (if step < 0 then L - 1 else x.Value)
    else if x.Value ≥ 0 then x.Value
    else if x.Value ≥ -L then x.Value + L
    else 0
  let limit1 : Int :=
    if y.Value ≥ 0 then y.Value
    else if y.Value ≥ -L then y.Value + L
    else -1
  let base : Int := if x.Known then base1 else (if step > 0 then 0 else L - 1)
  let limit : Int := if y.Known then limit1 else (if step > 0 then L else -1)
  ⟨base, limit, step, needInvert⟩

/-- The index-collection loop of `evalArray` (handlers.go): starting at `i`,
while `i < L && i > -1 && (i > limit when inverted, i < limit otherwise)`,
emit `i` and add `step`.  Fuel makes the recursion structural;
`sliceLoop_fuel_high` shows any fuel above the loop's natural bound gives
the same list, so the fuel is not observable. -/
def sliceLoop (L limit step : Int) (inv : Bool) : Nat → Int → List Int
  | 0, _ => []
  | fuel + 1, i =>
      if i < L ∧ -1 < i ∧ (if inv then limit < i else i < limit) then
        i :: sliceLoop L limit step inv fuel (i + step)
      else []

/-- Natural bound on the number of iterations the `evalArray` loop performs
from position `i` (backward runs stop at `-1`, forward runs stop at
`min L limit`). -/
def sliceBound (L limit : Int) (inv : Bool) (i : Int) : Nat :=
  (if inv then i + 1 else min L limit - i).toNat

theorem sliceLoop_fuel_high (L limit step : Int)
    (hs : step ≠ 0) :
    ∀ f₁ f₂ i,
      sliceBound L limit (decide (step < 0)) i < f₁ →
      sliceBound L limit (decide (step < 0)) i < f₂ →
      sliceLoop L limit step (decide (step < 0)) f₁ i =
        sliceLoop L limit step (decide (step < 0)) f₂ i := by
  intro f₁
  induction f₁ using Nat.strong_induction_on with
  | _ f₁ ih =>
    intro f₂ i h₁ h₂
    match f₁, f₂ with
    | fa + 1, fb + 1 =>
      rw [sliceLoop, sliceLoop]
      by_cases hc : i < L ∧ -1 < i ∧
          (if decide (step < 0) then limit < i else i < limit)
      · rw [if_pos hc, if_pos hc]
        rcases hc with ⟨hL, hm1, hlim⟩
        have hrec : sliceBound L limit (decide (step < 0)) (i + step) < fa ∧
            sliceBound L limit (decide (step < 0)) (i + step) < fb := by
          by_cases hneg : step < 0
          · simp [hneg] at hlim
            simp [sliceBound, hneg] at h₁ h₂ ⊢
            omega
          · simp [hneg] at hlim
            simp [sliceBound, hneg] at h₁ h₂ ⊢
            omega
        rw [ih fa (by omega) fb (i + step) hrec.1 hrec.2]
      · rw [if_neg hc, if_neg hc]

/-- Fuel handed to `sliceLoop`: one more than the natural iteration bound,
so by `sliceLoop_fuel_high` the loop runs to its genuine exit. -/
def sliceFuel (L limit : Int) (inv : Bool) (base : Int) : Nat :=
  sliceBound L limit inv base + 1

/-- The list of indices `evalArray` emits for a slice node over an array of
length `L` (read path of handlers.go: `inferArrayNode` then the collection
loop). -/
def sliceIndices (L : Nat) (x y z : ParamsEntry) : List Int :=
  let b := inferArrayNode L x y z
  sliceLoop L b.limit b.step b.needInvert (sliceFuel L b.limit b.needInvert b.base) b.base

/-- Step and invert flag exactly as the claim words them: the raw step is
`z.value` when `z` is known and `0` otherwise, `0` is coerced to `1`, and
invert is set when the (coerced) step is negative. -/
def sliceStepSpec (z : ParamsEntry) : Int × Bool :=
  let raw : Int := if z.Known then z.Value else 0
  let step : Int := if raw = 0 then 1 else raw
  (step, decide (step < 0))

/-- Base exactly as the claim words it, split first on whether `x` is
known. -/
def sliceBaseSpec (L : Int) (x : ParamsEntry) (step : Int) : Int :=
  if x.Known then
    if x.Value > L - 1 ∧ step < 0 then L - 1
    else if x.Value > L - 1 ∧ step > 0 then x.Value
    else if 0 ≤ x.Value ∧ x.Value ≤ L - 1 then x.Value
    else if -L ≤ x.Value ∧ x.Value < 0 then x.Value + L
    else 0
  else if step > 0 then 0 else L - 1

/-- Limit exactly as the claim words it (symmetric to the base, with the
unknown case giving `L` forward and `-1` backward). -/
def sliceLimitSpec (L : Int) (y : ParamsEntry) (step : Int) : Int :=
  if y.Known then
    if 0 ≤ y.Value then y.Value
    else if -L ≤ y.Value then y.Value + L
    else -1
  else if step > 0 then L else -1

/-- The claim's slice semantics assembled: compute step/invert, base and
limit per the claim's words, then run the same emission loop. -/
def sliceIndicesSpec (L : Nat) (x y z : ParamsEntry) : List Int :=
  let sb := sliceStepSpec z
  let base := sliceBaseSpec L x sb.1
  let limit := sliceLimitSpec L y sb.1
  sliceLoop L limit sb.1 sb.2 (sliceFuel L limit sb.2 base) base

theorem inferArrayNode_step_ne_zero (L : Int) (x y z : ParamsEntry) :
    (inferArrayNode L x y z).step ≠ 0 := by
  simp only [inferArrayNode]
  split_ifs <;> omega

theorem inferArrayNode_invert_eq (L : Int) (x y z : ParamsEntry) :
    (inferArrayNode L x y z).needInvert =
      decide ((inferArrayNode L x y z).step < 0) := by
  simp only [inferArrayNode]
  split_ifs with h1 h2 <;> simp_all

theorem sliceBase_code_eq_spec (L : Int) (x : ParamsEntry) (step : Int)
    (hs : step ≠ 0) :
    (if x.Known then
       (if x.Value > L - 1 then (if step < 0 then L - 1 else x.Value)
        else if x.Value ≥ 0 then x.Value
        else if x.Value ≥ -L then x.Value + L
        else 0)
     else (if step > 0 then 0 else L - 1)) = sliceBaseSpec L x step := by
  simp only [sliceBaseSpec]
  split_ifs <;> omega

theorem sliceLimit_code_eq_spec (L : Int) (y : ParamsEntry) (step : Int) :
    (if y.Known then
       (if y.Value ≥ 0 then y.Value
        else if y.Value ≥ -L then y.Value + L
        else (-1 : Int))
     else (if step > 0 then L else -1)) = sliceLimitSpec L y step := by
  simp only [sliceLimitSpec]

theorem inferArrayNode_eq_spec (L : Int) (x y z : ParamsEntry) :
    inferArrayNode L x y z =
      ⟨sliceBaseSpec L x (sliceStepSpec z).1,
       sliceLimitSpec L y (sliceStepSpec z).1,
       (sliceStepSpec z).1, (sliceStepSpec z).2⟩ := by
  have hne : ((if (if z.Known then z.Value else 0) = 0 then 1
      else (if z.Known then z.Value else 0)) : Int) ≠ 0 := by
    split_ifs <;> omega
  simp only [inferArrayNode, sliceStepSpec]
  rw [SliceBounds.mk.injEq]
  refine ⟨?_, ?_, rfl, ?_⟩
  · rw [← sliceBase_code_eq_spec L x _ hne]
  · rw [← sliceLimit_code_eq_spec L y]
  · split_ifs with h <;> simp_all

/-- C1: for every array length and slice parameters, the indices selected by
slice evaluation (the read path of `evalArray`: `inferArrayNode` followed by
the emission loop) are exactly the ones produced by the claim's recipe for
step, base, limit and the loop with condition
`i < L && i > -1 && (i < limit forward / i > limit backward)`. -/
theorem sliceIndices_eq_spec (L : Nat) (x y z : ParamsEntry) :
    sliceIndices L x y z = sliceIndicesSpec L x y z := by
  simp only [sliceIndices, sliceIndicesSpec, inferArrayNode_eq_spec]

example : sliceIndices 5 ⟨1, true, false⟩ ⟨3, true, false⟩ ⟨0, false, false⟩ =
    [1, 2] := rfl

example : sliceIndices 5 ⟨0, false, false⟩ ⟨0, false, false⟩ ⟨-2, true, false⟩ =
    [4, 2, 0] := rfl

example : sliceIndices 5 ⟨113667776004, true, false⟩ ⟨2, true, false⟩
    ⟨-1, true, false⟩ = [4, 3] := rfl

example : sliceIndices 5 ⟨2, true, false⟩ ⟨-113667776004, true, false⟩
    ⟨-1, true, false⟩ = [2, 1, 0] := rfl

/-- `VirtualInfo` from footprint.go: whether the selection refers to a child
that does not physically exist yet, and the pre-growth array length. -/
structure VirtualInfo where
  Virtual : Bool
  RealSize : Int
  deriving Repr, DecidableEq

/-- `SelectionKey` from footprint.go: a selected map key plus its embedded
`VirtualInfo`. -/
structure SelectionKey where
  Key : String
  vinfo : VirtualInfo
  deriving Repr, DecidableEq

/-- `SelectionIndex` from footprint.go: a selected array index plus its
embedded `VirtualInfo`. -/
structure SelectionIndex where
  Index : Int
  vinfo : VirtualInfo
  deriving Repr, DecidableEq

/-- `MapFootprint` from footprint.go.  `Ref` (a `*interface{}` in Go) is
modelled as the path of the referenced object inside the document. -/
structure MapFootprint where
  leaveItAsItIs : Bool
  Ref : List JStep
  SelectionKeys : List SelectionKey
  Virtual : Bool

/-- `ArrayFootprint` from footprint.go (its embedded `VirtualInfo` is the
field `vinfo`). -/
structure ArrayFootprint where
  leaveItAsItIs : Bool
  Ref : List JStep
  SelectionIndexes : List SelectionIndex
  vinfo : VirtualInfo

/-- `NonRefFootprint` from footprint.go: an owned scalar value. -/
structure NonRefFootprint where
  leaveItAsItIs : Bool
  value : JValue

/-- The `Footprint` interface as a closed sum of its three implementations. -/
inductive Footprint where
  | mapFp (m : MapFootprint)
  | arrayFp (a : ArrayFootprint)
  | nonRefFp (n : NonRefFootprint)

/-- `NewFootprint` from footprint.go: classify a value into the footprint
variant matching its container kind.  The Go function receives the
`VirtualInfo` through an untyped `SelectionKey`/`SelectionIndex`/`nil`
argument; callers here pass the extracted `VirtualInfo` directly
(`⟨false, 0⟩` for the `nil` case, Go's zero values). -/
def NewFootprint (v : JValue) (ref : List JStep) (vinfo : VirtualInfo) :
    Footprint :=
  match v with
  | .jobj _ => .mapFp ⟨false, ref, [], vinfo.Virtual⟩
  | .jarr _ => .arrayFp ⟨false, ref, [], vinfo⟩
  | _ => .nonRefFp ⟨false, v⟩

/-- `MapFootprint.LeaveItAsItIs`. -/
def MapFootprint.LeaveItAsItIs (mfp : MapFootprint) : MapFootprint :=
  { mfp with leaveItAsItIs := true }

/-- `ArrayFootprint.LeaveItAsItIs`. -/
def ArrayFootprint.LeaveItAsItIs (afp : ArrayFootprint) : ArrayFootprint :=
  { afp with leaveItAsItIs := true }

/-- `NonRefFootprint.LeaveItAsItIs`. -/
def NonRefFootprint.LeaveItAsItIs (nfp : NonRefFootprint) : NonRefFootprint :=
  { nfp with leaveItAsItIs := true }

/-- Interface dispatch for `LeaveItAsItIs`. -/
def Footprint.LeaveItAsItIs : Footprint → Footprint
  | .mapFp m => .mapFp m.LeaveItAsItIs
  | .arrayFp a => .arrayFp a.LeaveItAsItIs
  | .nonRefFp n => .nonRefFp n.LeaveItAsItIs

/-- `MapFootprint.Expand` from footprint.go: with the leave-as-is flag set,
return only the receiver with the flag cleared; with an empty selection
return the empty list; otherwise one child footprint per selected key
(`v := ref[sk.Key]` reads `nil` — here `JValue.null` — for an absent key).
The final catch-all models the Go type assertion panic on a `Ref` that does
not hold a map, which the evaluator's invariants rule out. -/
def MapFootprint.Expand (root : JValue) (mfp : MapFootprint) :
    Except String (List Footprint) :=
  if mfp.leaveItAsItIs then
    .ok [.mapFp { mfp with leaveItAsItIs := false }]
  else if mfp.SelectionKeys.length = 0 then
    .ok []
  else
    match pathGet root mfp.Ref with
    | some (.jobj es) =>
        .ok (mfp.SelectionKeys.map fun sk =>
          NewFootprint ((objGet es sk.Key).getD .null)
            (mfp.Ref ++ [.key sk.Key]) sk.vinfo)
    | _ => .error "type assertion failed: footprint ref is not a map"

/-- `ArrayFootprint.Expand` from footprint.go, same structure as the map
version (`ref[s.Index]` is always in range when reached, by the evaluator's
invariants; the `getD .null` default is the model of the impossible
out-of-range panic). -/
def ArrayFootprint.Expand (root : JValue) (afp : ArrayFootprint) :
    Except String (List Footprint) :=
  if afp.leaveItAsItIs then
    .ok [.arrayFp { afp with leaveItAsItIs := false }]
  else if afp.SelectionIndexes.length = 0 then
    .ok []
  else
    match pathGet root afp.Ref with
    | some (.jarr xs) =>
        .ok (afp.SelectionIndexes.map fun s =>
          NewFootprint ((arrGet xs s.Index.toNat).getD .null)
            (afp.Ref ++ [.idx s.Index.toNat]) s.vinfo)
    | _ => .error "type assertion failed: footprint ref is not an array"

/-- `NonRefFootprint.Expand` from footprint.go, statement for statement: the
method assigns `leaveItAsItIs = false` FIRST and tests the flag afterwards,
so the `[self]` branch below is dead code and the method always returns the
error (unlike the map and array variants, which test the flag before
clearing it). -/
def NonRefFootprint.Expand (nfp : NonRefFootprint) :
    Except String (List Footprint) :=
  let nfp1 : NonRefFootprint := { nfp with leaveItAsItIs := false }
  if nfp1.leaveItAsItIs then
    .ok [.nonRefFp nfp1]
  else
    .error "non-reference foot print cannot be expand"

/-- Interface dispatch for `Expand`. -/
def Footprint.Expand (root : JValue) : Footprint → Except String (List Footprint)
  | .mapFp m => m.Expand root
  | .arrayFp a => a.Expand root
  | .nonRefFp n => n.Expand

/-- `HolderPtr` dereferenced: `*(fp.HolderPtr())`.  Go hands back a pointer;
the model resolves the stored path against the current document
(`NonRefFootprint.HolderPtr` points at the owned value). -/
def Footprint.HolderVal (root : JValue) : Footprint → Option JValue
  | .mapFp m => pathGet root m.Ref
  | .arrayFp a => pathGet root a.Ref
  | .nonRefFp n => some n.value

/-- `MapFootprint.SelectAll` from footprint.go: select every key of the
referenced object.  Go iterates the map in nondeterministic order; the
model uses insertion order (no verified claim depends on the order). -/
def MapFootprint.SelectAll (root : JValue) (mfp : MapFootprint) :
    Except String Footprint :=
  match pathGet root mfp.Ref with
  | some (.jobj es) =>
      .ok (.mapFp { mfp with
        SelectionKeys := es.map fun e => ⟨e.1, ⟨false, -1⟩⟩ })
  | _ => .error "type assertion failed: footprint ref is not a map"

/-- `ArrayFootprint.SelectAll` from footprint.go: select indices
`0 .. len-1` in ascending order. -/
def ArrayFootprint.SelectAll (root : JValue) (afp : ArrayFootprint) :
    Except String Footprint :=
  match pathGet root afp.Ref with
  | some (.jarr xs) =>
      .ok (.arrayFp { afp with
        SelectionIndexes := (List.range xs.length).map fun i =>
          ⟨(i : Int), ⟨false, -1⟩⟩ })
  | _ => .error "type assertion failed: footprint ref is not an array"

/-- `NonRefFootprint.SelectAll` from footprint.go: always an error. -/
def NonRefFootprint.SelectAll (_nfp : NonRefFootprint) :
    Except String Footprint :=
  .error "SelectAll is not supported by NonRefFootprint"

/-- Interface dispatch for `SelectAll`. -/
def Footprint.SelectAll (root : JValue) : Footprint → Except String Footprint
  | .mapFp m => m.SelectAll root
  | .arrayFp a => a.SelectAll root
  | .nonRefFp n => n.SelectAll

/-- `IsVirtual` of each variant (`NonRefFootprint` always reports false). -/
def Footprint.IsVirtual : Footprint → Bool
  | .mapFp m => m.Virtual
  | .arrayFp a => a.vinfo.Virtual
  | .nonRefFp _ => false

/-- Loop body of `MapFootprint.EnforceArraySelection` (footprint.go): walk
the selected keys in order, recording the pre-growth length in `RealSize`,
growing an existing array child with nulls up to `size`, materializing an
array of `size` nulls for a virtual non-array child, and stopping with an
error otherwise.  Returns the updated document, the updated selection (Go
updates it in place through the shared slice) and the error if any; on an
error the document mutations of earlier iterations persist, as in Go. -/
def enforceArrayKeysGo (size : Int) (refPath : List JStep) :
    JValue → List SelectionKey → JValue × List SelectionKey × Option String
  | root, [] => (root, [], none)
  | root, s :: rest =>
      match pathGet root refPath with
      | some (.jobj es) =>
          match objGet es s.Key with
          | none => (root, s :: rest, some ("cannot find the element by key: " ++ s.Key))
          | some child =>
              match child with
              | .jarr xs =>
                  let s1 : SelectionKey :=
                    { s with vinfo := { s.vinfo with RealSize := (xs.length : Int) } }
                  let root1 := if size ≠ -1 ∧ (xs.length : Int) < size then
                      pathSet root (refPath ++ [.key s.Key])
                        (.jarr (xs ++ List.replicate (size - (xs.length : Int)).toNat .null))
                    else root
                  let r := enforceArrayKeysGo size refPath root1 rest
                  (r.1, s1 :: r.2.1, r.2.2)
              | _ =>
                  if !s.vinfo.Virtual then
                    (root, s :: rest, some "the selection is not an array or a virtual")
                  else if size = -1 then
                    (root, s :: rest, some "cannot use * to set in a virtual")
                  else
                    let s1 : SelectionKey :=
                      { s with vinfo := { s.vinfo with RealSize := -1 } }
                    let root1 := pathSet root (refPath ++ [.key s.Key])
                      (.jarr (List.replicate size.toNat .null))
                    let r := enforceArrayKeysGo size refPath root1 rest
                    (r.1, s1 :: r.2.1, r.2.2)
      | _ => (root, s :: rest, some "type assertion failed: footprint ref is not a map")

/-- `MapFootprint.EnforceArraySelection` from footprint.go. -/
def MapFootprint.EnforceArraySelection (root : JValue) (mfp : MapFootprint)
    (size : Int) : JValue × MapFootprint × Option String :=
  let r := enforceArrayKeysGo size mfp.Ref root mfp.SelectionKeys
  (r.1, { mfp with SelectionKeys := r.2.1 }, r.2.2)

/-- Loop body of `ArrayFootprint.EnforceArraySelection` (footprint.go):
like the map version but over selected indices, after the Go bound check
`s.Index < 0 || s.Index > len(ref)` (the `= len` case would panic in Go at
the following read; the model reports it as an error, and the evaluator
never produces it). -/
def enforceArrayIdxGo (size : Int) (refPath : List JStep) :
    JValue → List SelectionIndex → JValue × List SelectionIndex × Option String
  | root, [] => (root, [], none)
  | root, s :: rest =>
      match pathGet root refPath with
      | some (.jarr xs) =>
          if s.Index < 0 ∨ s.Index > (xs.length : Int) then
            (root, s :: rest, some "invalid index when EnforceArraySelection")
          else
            match arrGet xs s.Index.toNat with
            | none => (root, s :: rest, some "panic: index out of range")
            | some child =>
                match child with
                | .jarr ys =>
                    let s1 : SelectionIndex :=
                      { s with vinfo := { s.vinfo with RealSize := (ys.length : Int) } }
                    let root1 := if size ≠ -1 ∧ (ys.length : Int) < size then
                        pathSet root (refPath ++ [.idx s.Index.toNat])
                          (.jarr (ys ++ List.replicate (size - (ys.length : Int)).toNat .null))
                      else root
                    let r := enforceArrayIdxGo size refPath root1 rest
                    (r.1, s1 :: r.2.1, r.2.2)
                | _ =>
                    if !s.vinfo.Virtual then
                      (root, s :: rest, some "the selection is not an array or a virtual")
                    else if size = -1 then
                      (root, s :: rest, some "cannot use * to set in a virtual")
                    else
                      let s1 : SelectionIndex :=
                        { s with vinfo := { s.vinfo with RealSize := -1 } }
                      let root1 := pathSet root (refPath ++ [.idx s.Index.toNat])
                        (.jarr (List.replicate size.toNat .null))
                      let r := enforceArrayIdxGo size refPath root1 rest
                      (r.1, s1 :: r.2.1, r.2.2)
      | _ => (root, s :: rest, some "type assertion failed: footprint ref is not an array")

/-- `ArrayFootprint.EnforceArraySelection` from footprint.go. -/
def ArrayFootprint.EnforceArraySelection (root : JValue) (afp : ArrayFootprint)
    (size : Int) : JValue × ArrayFootprint × Option String :=
  let r := enforceArrayIdxGo size afp.Ref root afp.SelectionIndexes
  (r.1, { afp with SelectionIndexes := r.2.1 }, r.2.2)

/-- Loop body of `MapFootprint.EnforceObjectSelection` (footprint.go):
ensure every selected child is an object, materializing an empty object for
virtual selections, erroring otherwise.  The selection itself is not
modified. -/
def enforceObjectKeysGo (refPath : List JStep) :
    JValue → List SelectionKey → JValue × Option String
  | root, [] => (root, none)
  | root, s :: rest =>
      match pathGet root refPath with
      | some (.jobj es) =>
          match objGet es s.Key with
          | none => (root, some ("cannot find the element by key: " ++ s.Key))
          | some child =>
              match child with
              | .jobj _ => enforceObjectKeysGo refPath root rest
              | _ =>
                  if s.vinfo.Virtual then
                    enforceObjectKeysGo refPath
                      (pathSet root (refPath ++ [.key s.Key]) (.jobj [])) rest
                  else (root, some "the selection is not an array or a virtual")
      | _ => (root, some "type assertion failed: footprint ref is not a map")

/-- `MapFootprint.EnforceObjectSelection` from footprint.go. -/
def MapFootprint.EnforceObjectSelection (root : JValue) (mfp : MapFootprint) :
    JValue × Option String :=
  enforceObjectKeysGo mfp.Ref root mfp.SelectionKeys

/-- Loop body of `ArrayFootprint.EnforceObjectSelection` (footprint.go). -/
def enforceObjectIdxGo (refPath : List JStep) :
    JValue → List SelectionIndex → JValue × Option String
  | root, [] => (root, none)
  | root, s :: rest =>
      match pathGet root refPath with
      | some (.jarr xs) =>
          if s.Index < 0 ∨ s.Index > (xs.length : Int) then
            (root, some "invalid index when EnforceObjectSelection")
          else
            match arrGet xs s.Index.toNat with
            | none => (root, some "panic: index out of range")
            | some child =>
                match child with
                | .jobj _ => enforceObjectIdxGo refPath root rest
                | _ =>
                    if s.vinfo.Virtual then
                      enforceObjectIdxGo refPath
                        (pathSet root (refPath ++ [.idx s.Index.toNat]) (.jobj [])) rest
                    else (root, some "the selection is not an array or a virtual")
      | _ => (root, some "type assertion failed: footprint ref is not an array")

/-- `ArrayFootprint.EnforceObjectSelection` from footprint.go. -/
def ArrayFootprint.EnforceObjectSelection (root : JValue) (afp : ArrayFootprint) :
    JValue × Option String :=
  enforceObjectIdxGo afp.Ref root afp.SelectionIndexes

/-- Interface dispatch for `EnforceArraySelection` (`NonRefFootprint`
always errors). -/
def Footprint.EnforceArraySelection (root : JValue) (size : Int) :
    Footprint → JValue × Footprint × Option String
  | .mapFp m =>
      let r := m.EnforceArraySelection root size
      (r.1, .mapFp r.2.1, r.2.2)
  | .arrayFp a =>
      let r := a.EnforceArraySelection root size
      (r.1, .arrayFp r.2.1, r.2.2)
  | .nonRefFp n =>
      (root, .nonRefFp n, some "EnforceArraySelection is not supported by NonRefFootprint")

/-- Interface dispatch for `EnforceObjectSelection` (`NonRefFootprint`
always errors). -/
def Footprint.EnforceObjectSelection (root : JValue) :
    Footprint → JValue × Option String
  | .mapFp m => m.EnforceObjectSelection root
  | .arrayFp a => a.EnforceObjectSelection root
  | .nonRefFp _ =>
      (root, some "EnforceObjectSelection is not supported by NonRefFootprint")

/-- Evaluator state: the synthetic root holder (`FindResult` wraps the
document as the single element of `j.dataHolder`, so `root` is
`jarr [doc]`) plus the warning accumulator (`j.warnings`). -/
structure EvalState where
  root : JValue
  warnings : List String

/-- `expandFootprints` from handlers.go: expand each footprint, keeping an
unexpandable one only when `remainUnexpandableFootprint` is set (on an
expansion error with the flag unset, Go appends the `nil` result, adding
nothing). -/
def expandFootprints (root : JValue) :
    List Footprint → Bool → List Footprint
  | [], _ => []
  | fp :: rest, remain =>
      (match fp.Expand root with
       | .error _ => if remain then [fp] else []
       | .ok fps => fps) ++ expandFootprints root rest remain

/-- AST node kinds (node model; the file defining them is not under `src/`,
but every constructor and field is fixed by its uses in parser and
handlers: `ListNode.Nodes`, `FieldNode.Value`, `ArrayNode.Params` of length
3 — here three explicit entries — `ArrayElementNode`'s embedded
`ParamsEntry`, `UnionNode.Nodes` of `*ListNode` — here `List (List Node)` —
`FilterNode.Left/Right/Operator`, and the literal nodes). -/
inductive Node where
  | ListNode (Nodes : List Node)
  | TextNode (Value : String)
  | FieldNode (Value : String)
  | WildcardNode
  | RecursiveNode
  | ArrayNode (p0 p1 p2 : ParamsEntry)
  | ArrayElementNode (param : ParamsEntry)
  | UnionNode (Nodes : List (List Node))
  | FilterNode (Left : List Node) (Right : List Node) (Operator : String)
  | IntNode (Value : Int)
  | FloatNode (Value : Rat)
  | BoolNode (Value : Bool)
  | IdentifierNode (Value : String)

/-- Numeric reading of a scalar for the compare collaborator (Int and Float
widen uniformly). -/
def scalarNum : JValue → Option Rat
  | .jint n => some (n : Rat)
  | .jfloat q => some q
  | _ => none

/-- Modelled from the spec: the ordering half of the scalar-compare
collaborator (Go package `jsonpath/template`, whose source is not part of
this repository).  §4.3: numeric comparisons widen Int↔Float uniformly,
strings compare lexicographically, a type mismatch between the operands is
an error. -/
def templateOrd (left right : JValue) : Except String Ordering :=
  match scalarNum left, scalarNum right with
  | some a, some b => .ok (compare a b)
  | _, _ =>
      match left, right with
      | .jstr a, .jstr b => .ok (compare a b)
      | _, _ => .error "incompatible types for comparison"

/-- Modelled from the spec: the equality half of the scalar-compare
collaborator (also covering booleans and nulls structurally; no verified
claim depends on which pairs it accepts). -/
def templateEq (left right : JValue) : Except String Bool :=
  match scalarNum left, scalarNum right with
  | some a, some b => .ok (a = b)
  | _, _ =>
      match left, right with
      | .jstr a, .jstr b => .ok (a = b)
      | .jbool a, .jbool b => .ok (a = b)
      | .null, .null => .ok true
      | _, _ => .error "incompatible types for comparison"

/-- `genericCompare` from handlers.go: dispatch the operator to the
template package's comparison helpers, returning `(false, err)` when the
helper errs and `(false, "unrecognized filter operator")` on an unknown
operator.  The result pair is `(pass, error?)`. -/
def genericCompare (operator : String) (left right : JValue) :
    Bool × Option String :=
  let outcome : Except String Bool :=
    match operator with
    | "<" => templateOrd left right |>.map (· = Ordering.lt)
    | ">" => templateOrd left right |>.map (· = Ordering.gt)
    | "==" => templateEq left right
    | "!=" => templateEq left right |>.map (!·)
    | "<=" => templateOrd left right |>.map (· ≠ Ordering.gt)
    | ">=" => templateOrd left right |>.map (· ≠ Ordering.lt)
    | _ => .error ("unrecognized filter operator " ++ operator)
  match outcome with
  | .ok pass => (pass, none)
  | .error e => (false, some e)

/-- The `Ref` path of a footprint (`none` for `NonRefFootprint`, whose
holder is its owned scalar and never a container). -/
def fpRefPath : Footprint → Option (List JStep)
  | .mapFp m => some m.Ref
  | .arrayFp a => some a.Ref
  | .nonRefFp _ => none

/-- `EnforceObjectSelection` applied to each footprint in order
(write-mode pre-pass of `evalField`), stopping at the first error. -/
def enforceObjAll (root : JValue) : List Footprint → JValue × Option String
  | [] => (root, none)
  | fp :: rest =>
      let r := fp.EnforceObjectSelection root
      match r.2 with
      | some e => (r.1, some e)
      | none => enforceObjAll r.1 rest

/-- `EnforceArraySelection size` applied to each footprint in order
(write-mode pre-pass of `evalArray`/`evalArrayElement`), stopping at the
first error; the footprints' selections carry the recorded `RealSize`s out
(Go updates them in place through the shared slices). -/
def enforceArrAll (size : Int) : JValue → List Footprint →
    JValue × List Footprint × Option String
  | root, [] => (root, [], none)
  | root, fp :: rest =>
      let r := fp.EnforceArraySelection root size
      match r.2.2 with
      | some e => (r.1, r.2.1 :: rest, some e)
      | none =>
          let r2 := enforceArrAll size r.1 rest
          (r2.1, r.2.1 :: r2.2.1, r2.2.2)

/-- Per-footprint body of `evalField`'s result loop (handlers.go): an
object holder yields a single-key `MapFootprint` (existing key), or — in
write mode — auto-creates `Object[name] = {}` and marks the selection
virtual; a missing key in read mode appends a warning and yields nothing;
a non-object holder is skipped silently (the error return in that position
is commented out in the Go source). -/
def evalFieldOne (wm : Bool) (name : String) (s : EvalState) (fp : Footprint) :
    EvalState × List Footprint :=
  match fpRefPath fp with
  | some p =>
      match pathGet s.root p with
      | some (.jobj es) =>
          if (objGet es name).isSome then
            (s, [.mapFp ⟨false, p, [⟨name, ⟨false, -1⟩⟩], false⟩])
          else if wm then
            ({ s with root := pathSet s.root (p ++ [.key name]) (.jobj []) },
             [.mapFp ⟨false, p, [⟨name, ⟨true, -1⟩⟩], false⟩])
          else
            ({ s with warnings := s.warnings ++ ["cannot find the field: " ++ name] },
             [])
      | _ => (s, [])
  | none => (s, [])

/-- Result loop of `evalField` over the expanded footprints. -/
def evalFieldLoop (wm : Bool) (name : String) :
    EvalState → List Footprint → EvalState × List Footprint
  | s, [] => (s, [])
  | s, fp :: rest =>
      let r := evalFieldOne wm name s fp
      let r2 := evalFieldLoop wm name r.1 rest
      (r2.1, r.2 ++ r2.2)

/-- `evalField` from handlers.go: write-mode `EnforceObjectSelection`
pre-pass, expansion with `remainUnexpandableFootprint=false`, then the
per-footprint result loop. -/
def evalField (wm : Bool) (s : EvalState) (fps : List Footprint)
    (name : String) : EvalState × Except String (List Footprint) :=
  let pre := if wm then enforceObjAll s.root fps else (s.root, none)
  match pre.2 with
  | some e => ({ s with root := pre.1 }, .error e)
  | none =>
      let s1 : EvalState := { s with root := pre.1 }
      let fps1 := expandFootprints s1.root fps false
      let r := evalFieldLoop wm name s1 fps1
      (r.1, .ok r.2)

/-- Write-mode pre-pass of `evalArray` (handlers.go): an unknown start is
coerced to `0` (Go writes this into the AST; the parser always stores
`Value = 0` for an unknown entry, so on parser-produced nodes the write is
the identity, and the model uses the coerced entry for the remainder of the
invocation), the enforcement size is the end value when known and
`start + 1` otherwise, and the all-zero (wildcard) parameter triple forces
size `-1`.  Returns the coerced start entry and the size. -/
def evalArrayTail (x y z : ParamsEntry) : ParamsEntry × Int :=
  let x1 := if !x.Known then { x with Value := 0 } else x
  let tail := if !y.Known then x1.Value + 1 else y.Value
  let tail := if x1.Value = 0 ∧ y.Value = 0 ∧ z.Value = 0 then -1 else tail
  (x1, tail)

/-- Per-footprint result loop of `evalArray` (handlers.go): for an array
holder, run the slice resolution (`sliceIndices` = `inferArrayNode` plus
the emission loop) and emit one `ArrayFootprint` whose selection marks
`i ≥ RealSize` entries virtual in write mode; a non-array holder appends a
warning.  (A non-`ArrayFootprint` whose holder dereferences to an array
would make Go's `footprint.(ArrayFootprint)` assertion panic; `NewFootprint`
classifies footprints by holder kind, so no such footprint exists, and the
model folds that impossible case into the warning branch.) -/
def evalArrayLoop (wm : Bool) (x y z : ParamsEntry) :
    EvalState → List Footprint → EvalState × List Footprint
  | s, [] => (s, [])
  | s, fp :: rest =>
      match fp, fp.HolderVal s.root with
      | .arrayFp a, some (.jarr xs) =>
          let sel := (sliceIndices xs.length x y z).map fun i =>
            (⟨i, ⟨wm && decide (i ≥ a.vinfo.RealSize), -1⟩⟩ : SelectionIndex)
          let r := evalArrayLoop wm x y z s rest
          (r.1, .arrayFp ⟨false, a.Ref, sel, ⟨false, 0⟩⟩ :: r.2)
      | _, _ =>
          let s1 : EvalState := { s with warnings := s.warnings ++
            ["cannot use a index number to find a element in a non-array object"] }
          evalArrayLoop wm x y z s1 rest

/-- `evalArray` from handlers.go: in write mode, enforce the array
selection at the computed size on every incoming footprint (aborting on
error), then expand and run the per-footprint loop. -/
def evalArray (wm : Bool) (s : EvalState) (fps : List Footprint)
    (x y z : ParamsEntry) : EvalState × Except String (List Footprint) :=
  if wm then
    let xt := evalArrayTail x y z
    let r := enforceArrAll xt.2 s.root fps
    match r.2.2 with
    | some e => ({ s with root := r.1 }, .error e)
    | none =>
        let s1 : EvalState := { s with root := r.1 }
        let fps1 := expandFootprints s1.root r.2.1 false
        let r2 := evalArrayLoop wm xt.1 y z s1 fps1
        (r2.1, .ok r2.2)
  else
    let fps1 := expandFootprints s.root fps false
    let r2 := evalArrayLoop wm x y z s fps1
    (r2.1, .ok r2.2)

/-- Per-footprint result loop of `evalArrayElement` (handlers.go): resolve
the possibly negative index against the array length; an in-range index
yields a one-entry selection (virtual when `i ≥ RealSize` in write mode),
an out-of-range one an empty selection — the `ArrayFootprint` is appended
either way.  Non-array holders warn, as in `evalArrayLoop`. -/
def evalArrayElementLoop (wm : Bool) (p : ParamsEntry) :
    EvalState → List Footprint → EvalState × List Footprint
  | s, [] => (s, [])
  | s, fp :: rest =>
      match fp, fp.HolderVal s.root with
      | .arrayFp a, some (.jarr xs) =>
          let L : Int := (xs.length : Int)
          let i : Int :=
            if p.Value ≥ 0 ∧ p.Value ≤ L - 1 then p.Value
            else if p.Value ≥ -L then p.Value + L
            else -1
          let sel : List SelectionIndex :=
            if 0 ≤ i ∧ i < L then
              [⟨i, ⟨wm && decide (i ≥ a.vinfo.RealSize), -1⟩⟩]
            else []
          let r := evalArrayElementLoop wm p s rest
          (r.1, .arrayFp ⟨false, a.Ref, sel, ⟨false, 0⟩⟩ :: r.2)
      | _, _ =>
          let s1 : EvalState := { s with warnings := s.warnings ++
            ["cannot use a index number to find a element in a non-array object"] }
          evalArrayElementLoop wm p s1 rest

/-- `evalArrayElement` from handlers.go: in write mode a negative or
unknown index is an immediate error (before anything is enforced or
expanded); otherwise enforce size `index + 1`, expand, and run the loop. -/
def evalArrayElement (wm : Bool) (s : EvalState) (fps : List Footprint)
    (p : ParamsEntry) : EvalState × Except String (List Footprint) :=
  if wm then
    if p.Value < 0 then (s, .error "cannot use a negative index in set mode")
    else if !p.Known then (s, .error "index unknown in set mode")
    else
      let r := enforceArrAll (p.Value + 1) s.root fps
      match r.2.2 with
      | some e => ({ s with root := r.1 }, .error e)
      | none =>
          let s1 : EvalState := { s with root := r.1 }
          let fps1 := expandFootprints s1.root r.2.1 false
          let r2 := evalArrayElementLoop wm p s1 fps1
          (r2.1, .ok r2.2)
  else
    let fps1 := expandFootprints s.root fps false
    let r2 := evalArrayElementLoop wm p s fps1
    (r2.1, .ok r2.2)

/-- `evalWildcard` from handlers.go: expand, then replace each footprint by
its `SelectAll` when that succeeds; on failure Go writes to the standard
logger (not the warning accumulator) and keeps the footprint unchanged. -/
def evalWildcard (s : EvalState) (fps : List Footprint) :
    EvalState × Except String (List Footprint) :=
  let fps1 := expandFootprints s.root fps false
  (s, .ok (fps1.map fun fp =>
    match fp.SelectAll s.root with
    | .error _ => fp
    | .ok sel => sel))

/-- `evalInt` from handlers.go: expand, then one `NonRefFootprint` holding
the literal per EXPANDED footprint. -/
def evalInt (s : EvalState) (fps : List Footprint) (v : Int) :
    EvalState × Except String (List Footprint) :=
  let fps1 := expandFootprints s.root fps false
  (s, .ok (fps1.map fun _ => NewFootprint (.jint v) [] ⟨false, 0⟩))

/-- `evalBool` from handlers.go, same shape as `evalInt`. -/
def evalBool (s : EvalState) (fps : List Footprint) (v : Bool) :
    EvalState × Except String (List Footprint) :=
  let fps1 := expandFootprints s.root fps false
  (s, .ok (fps1.map fun _ => NewFootprint (.jbool v) [] ⟨false, 0⟩))

/-- `evalFloat` from handlers.go, same shape as `evalInt`. -/
def evalFloat (s : EvalState) (fps : List Footprint) (v : Rat) :
    EvalState × Except String (List Footprint) :=
  let fps1 := expandFootprints s.root fps false
  (s, .ok (fps1.map fun _ => NewFootprint (.jfloat v) [] ⟨false, 0⟩))

/-- `recursivelyCollectFootprint` from handlers.go: record a leave-as-is
copy of the footprint, then recurse into the children obtained by
`SelectAll` followed by `Expand` (both errors swallowed).  Fuel bounds the
document-depth recursion; the evaluator passes its own (ample) fuel. -/
def recursivelyCollectFootprint (root : JValue) : Nat → Footprint → List Footprint
  | 0, _ => []
  | fuel + 1, fp =>
      fp.LeaveItAsItIs ::
      (match fp.SelectAll root with
       | .error _ => []
       | .ok selected =>
           match selected.Expand root with
           | .error _ => []
           | .ok children =>
               (children.map (recursivelyCollectFootprint root fuel)).flatten)

/-- `evalRecursive` from handlers.go: expand, then pre-order collect every
footprint reachable from each expanded footprint. -/
def evalRecursive (s : EvalState) (fuel : Nat) (fps : List Footprint) :
    EvalState × Except String (List Footprint) :=
  let fps1 := expandFootprints s.root fps false
  (s, .ok ((fps1.map (recursivelyCollectFootprint s.root fuel)).flatten))

mutual

/-- `walk` from jsonpath façade: dispatch on the node kind (a `TextNode` or
`IdentifierNode` falls to the default case and errors).  Fuel makes the
mutual recursion structural; it is decremented at every call, and the
top-level entry points pass an amply sufficient amount. -/
def walk (wm : Bool) (fuel : Nat) (s : EvalState) (fps : List Footprint)
    (n : Node) : EvalState × Except String (List Footprint) :=
  match fuel with
  | 0 => (s, .error "fuel exhausted")
  | fuel + 1 =>
      match n with
      | .ListNode ns => evalList wm fuel s fps ns
      | .FieldNode v => evalField wm s fps v
      | .ArrayNode x y z => evalArray wm s fps x y z
      | .IntNode v => evalInt s fps v
      | .BoolNode v => evalBool s fps v
      | .FloatNode v => evalFloat s fps v
      | .WildcardNode => evalWildcard s fps
      | .RecursiveNode => evalRecursive s fuel fps
      | .UnionNode cs => evalUnion wm fuel s fps cs
      | .FilterNode l r op => evalFilter wm fuel s fps l r op
      | .ArrayElementNode p => evalArrayElement wm s fps p
      | .TextNode _ => (s, .error "unexpected Node")
      | .IdentifierNode _ => (s, .error "unexpected Node")

/-- `evalList` from handlers.go: fold the footprint set through the child
nodes, short-circuiting on the first error. -/
def evalList (wm : Bool) (fuel : Nat) (s : EvalState) (fps : List Footprint)
    (ns : List Node) : EvalState × Except String (List Footprint) :=
  match fuel with
  | 0 => (s, .error "fuel exhausted")
  | fuel + 1 =>
      match ns with
      | [] => (s, .ok fps)
      | n :: rest =>
          match walk wm fuel s fps n with
          | (s1, .error e) => (s1, .error e)
          | (s1, .ok fps1) => evalList wm fuel s1 fps1 rest

/-- `evalUnion` from handlers.go: evaluate every child list against the
same incoming footprint set, concatenating results in child order. -/
def evalUnion (wm : Bool) (fuel : Nat) (s : EvalState) (fps : List Footprint)
    (cs : List (List Node)) : EvalState × Except String (List Footprint) :=
  match fuel with
  | 0 => (s, .error "fuel exhausted")
  | fuel + 1 =>
      match cs with
      | [] => (s, .ok [])
      | c :: rest =>
          match evalList wm fuel s fps c with
          | (s1, .error e) => (s1, .error e)
          | (s1, .ok out) =>
              match evalUnion wm fuel s1 fps rest with
              | (s2, .error e) => (s2, .error e)
              | (s2, .ok outs) => (s2, .ok (out ++ outs))

/-- `evalFilter` from handlers.go, entry: expand the incoming footprints,
then process each. -/
def evalFilter (wm : Bool) (fuel : Nat) (s : EvalState) (fps : List Footprint)
    (l r : List Node) (op : String) : EvalState × Except String (List Footprint) :=
  match fuel with
  | 0 => (s, .error "fuel exhausted")
  | fuel + 1 =>
      evalFilterFps wm fuel s (expandFootprints s.root fps false) l r op

/-- Outer loop of `evalFilter` (handlers.go): for each footprint,
`SelectAll` (a failure skips the footprint), `Expand` into the candidate
elements (error swallowed, yielding none), and process the elements. -/
def evalFilterFps (wm : Bool) (fuel : Nat) (s : EvalState)
    (fps : List Footprint) (l r : List Node) (op : String) :
    EvalState × Except String (List Footprint) :=
  match fuel with
  | 0 => (s, .error "fuel exhausted")
  | fuel + 1 =>
      match fps with
      | [] => (s, .ok [])
      | fp :: rest =>
          match fp.SelectAll s.root with
          | .error _ => evalFilterFps wm fuel s rest l r op
          | .ok allSel =>
              let elements := match allSel.Expand s.root with
                | .error _ => []
                | .ok es => es
              match evalFilterElems wm fuel s elements l r op with
              | (s1, .error e) => (s1, .error e)
              | (s1, .ok outs) =>
                  match evalFilterFps wm fuel s1 rest l r op with
                  | (s2, .error e) => (s2, .error e)
                  | (s2, .ok outs2) => (s2, .ok (outs ++ outs2))

/-- Inner loop of `evalFilter` (handlers.go): process the candidate
elements in order, short-circuiting on a hard error and collecting the
elements that pass. -/
def evalFilterElems (wm : Bool) (fuel : Nat) (s : EvalState)
    (elems : List Footprint) (l r : List Node) (op : String) :
    EvalState × Except String (List Footprint) :=
  match fuel with
  | 0 => (s, .error "fuel exhausted")
  | fuel + 1 =>
      match elems with
      | [] => (s, .ok [])
      | e :: rest =>
          match evalFilterElement wm fuel s e l r op with
          | (s1, .error msg) => (s1, .error msg)
          | (s1, .ok out) =>
              match evalFilterElems wm fuel s1 rest l r op with
              | (s2, .error msg) => (s2, .error msg)
              | (s2, .ok outs) => (s2, .ok (out.toList ++ outs))

/-- Per-element body of `evalFilter` (handlers.go).  The element is marked
leave-as-is, the LHS list is evaluated over `[element]`; in `exists` mode
the element passes iff that yields a non-empty set (a sub-evaluation error
is swallowed there, Go checks `err` only after the `exists` branch).
Otherwise each side is expanded with `remainUnexpandableFootprint=true` and
must yield exactly one footprint: zero skips the element (`ok none`), more
than one is the hard error `can only compare one element at a time`;
finally the dereferenced sides go to `genericCompare`, whose error becomes
a warning (the element then fails the filter since `pass` is false). -/
def evalFilterElement (wm : Bool) (fuel : Nat) (s : EvalState)
    (element0 : Footprint) (l r : List Node) (op : String) :
    EvalState × Except String (Option Footprint) :=
  match fuel with
  | 0 => (s, .error "fuel exhausted")
  | fuel + 1 =>
      let element := element0.LeaveItAsItIs
      match evalList wm fuel s [element] l with
      | (s1, leftsE) =>
          if op = "exists" then
            match leftsE with
            | .error _ => (s1, .ok none)
            | .ok lefts => (s1, .ok (if lefts.length > 0 then some element else none))
          else
            match leftsE with
            | .error e => (s1, .error e)
            | .ok lefts0 =>
                match expandFootprints s1.root lefts0 true with
                | [] => (s1, .ok none)
                | [lf] =>
                    let left := (Footprint.HolderVal s1.root lf).getD .null
                    match evalList wm fuel s1 [element] r with
                    | (s2, .error e) => (s2, .error e)
                    | (s2, .ok rights0) =>
                        match expandFootprints s2.root rights0 true with
                        | [] => (s2, .ok none)
                        | [rf] =>
                            let right := (Footprint.HolderVal s2.root rf).getD .null
                            let cmp := genericCompare op left right
                            let s3 := match cmp.2 with
                              | some e => { s2 with warnings := s2.warnings ++ [e] }
                              | none => s2
                            (s3, .ok (if cmp.1 then some element else none))
                        | _ :: _ :: _ =>
                            (s2, .error "can only compare one element at a time")
                | _ :: _ :: _ =>
                    (s1, .error "can only compare one element at a time")

end

/-- `FindResult` from the façade: wrap the document in the one-element
data holder, `SelectAll` it, reject an empty expression, and evaluate the
root list.  `rootNodes` is the compiled `parser.Root.Nodes`; its first
element is the inner `ListNode` (always, for inputs that went through the
`leftDelim`/`rightDelim` wrapping). -/
def FindResult (wm : Bool) (fuel : Nat) (doc : JValue) (rootNodes : List Node) :
    EvalState × Except String (List Footprint) :=
  let root : JValue := .jarr [doc]
  let s : EvalState := ⟨root, []⟩
  match NewFootprint root [] ⟨false, 0⟩ |>.SelectAll root with
  | .error e => (s, .error e)
  | .ok selected =>
      match rootNodes with
      | .ListNode [] :: _ => (s, .error "cannot handle empty expression")
      | .ListNode inner :: _ => evalList wm fuel s [selected] inner
      | _ => (s, .error "panic: root node is not a list")

/-- `Get` from the façade: read-mode `FindResult`, then expand the final
footprints with `remainUnexpandableFootprint=true` and dereference each
`HolderPtr` (the model returns the dereferenced values; a `none` entry
would correspond to a dangling pointer, which never occurs). -/
def GetEval (fuel : Nat) (doc : JValue) (rootNodes : List Node) :
    EvalState × Except String (List (Option JValue)) :=
  match FindResult false fuel doc rootNodes with
  | (s, .error e) => (s, .error e)
  | (s, .ok fps) =>
      (s, .ok ((expandFootprints s.root fps true).map (Footprint.HolderVal s.root)))

theorem evalFieldOne_read_root (name : String) (s : EvalState) (fp : Footprint) :
    (evalFieldOne false name s fp).1.root = s.root := by
  simp only [evalFieldOne]
  repeat' split
  all_goals simp_all

theorem evalFieldLoop_read_root (name : String) :
    ∀ (fps : List Footprint) (s : EvalState),
      (evalFieldLoop false name s fps).1.root = s.root := by
  intro fps
  induction fps with
  | nil => intro s; rfl
  | cons fp rest ih =>
      intro s
      simp only [evalFieldLoop]
      rw [ih, evalFieldOne_read_root]

theorem evalField_read_root (s : EvalState) (fps : List Footprint)
    (name : String) : (evalField false s fps name).1.root = s.root := by
  simp [evalField, evalFieldLoop_read_root]

theorem evalArrayLoop_root (wm : Bool) (x y z : ParamsEntry) :
    ∀ (fps : List Footprint) (s : EvalState),
      (evalArrayLoop wm x y z s fps).1.root = s.root := by
  intro fps
  induction fps with
  | nil => intro s; rfl
  | cons fp rest ih =>
      intro s
      simp only [evalArrayLoop]
      repeat' split
      all_goals simp [ih]

theorem evalArray_read_root (s : EvalState) (fps : List Footprint)
    (x y z : ParamsEntry) : (evalArray false s fps x y z).1.root = s.root := by
  simp only [evalArray]
  rw [if_neg (by simp)]
  rw [evalArrayLoop_root]

theorem evalArrayElementLoop_root (wm : Bool) (p : ParamsEntry) :
    ∀ (fps : List Footprint) (s : EvalState),
      (evalArrayElementLoop wm p s fps).1.root = s.root := by
  intro fps
  induction fps with
  | nil => intro s; rfl
  | cons fp rest ih =>
      intro s
      simp only [evalArrayElementLoop]
      repeat' split
      all_goals simp [ih]

theorem evalArrayElement_read_root (s : EvalState) (fps : List Footprint)
    (p : ParamsEntry) : (evalArrayElement false s fps p).1.root = s.root := by
  simp only [evalArrayElement]
  rw [if_neg (by simp)]
  rw [evalArrayElementLoop_root]

theorem eval_read_preserves_root (fuel : Nat) :
    (∀ s fps n, (walk false fuel s fps n).1.root = s.root) ∧
    (∀ s fps ns, (evalList false fuel s fps ns).1.root = s.root) ∧
    (∀ s fps cs, (evalUnion false fuel s fps cs).1.root = s.root) ∧
    (∀ s fps l r op, (evalFilter false fuel s fps l r op).1.root = s.root) ∧
    (∀ s fps l r op, (evalFilterFps false fuel s fps l r op).1.root = s.root) ∧
    (∀ s elems l r op, (evalFilterElems false fuel s elems l r op).1.root = s.root) ∧
    (∀ s e l r op, (evalFilterElement false fuel s e l r op).1.root = s.root) := by
  induction fuel with
  | zero =>
      refine ⟨?_, ?_, ?_, ?_, ?_, ?_, ?_⟩ <;> intros <;> rfl
  | succ fuel ih =>
      obtain ⟨ihW, ihL, ihU, ihF, ihFF, ihFE, ihFEl⟩ := ih
      have hW : ∀ s fps n, (walk false (fuel + 1) s fps n).1.root = s.root := by
        intro s fps n
        cases n with
        | ListNode ns => exact ihL s fps ns
        | FieldNode v => exact evalField_read_root s fps v
        | ArrayNode x y z => exact evalArray_read_root s fps x y z
        | IntNode v => rfl
        | BoolNode v => rfl
        | FloatNode v => rfl
        | WildcardNode => rfl
        | RecursiveNode => rfl
        | UnionNode cs => exact ihU s fps cs
        | FilterNode l r op => exact ihF s fps l r op
        | ArrayElementNode p => exact evalArrayElement_read_root s fps p
        | TextNode v => rfl
        | IdentifierNode v => rfl
      have hL : ∀ s fps ns, (evalList false (fuel + 1) s fps ns).1.root = s.root := by
        intro s fps ns
        cases ns with
        | nil => rfl
        | cons n rest =>
            rcases hw : walk false fuel s fps n with ⟨s1, r1⟩
            have hr1 : s1.root = s.root := by
              have h := ihW s fps n
              rw [hw] at h
              exact h
            cases r1 with
            | error e => simp [evalList, hw, hr1]
            | ok fps1 =>
                have h2 := ihL s1 fps1 rest
                simp [evalList, hw, h2, hr1]
      have hU : ∀ s fps cs, (evalUnion false (fuel + 1) s fps cs).1.root = s.root := by
        intro s fps cs
        cases cs with
        | nil => rfl
        | cons c rest =>
            rcases hv : evalList false fuel s fps c with ⟨s1, r1⟩
            have hr1 : s1.root = s.root := by
              have h := ihL s fps c
              rw [hv] at h
              exact h
            cases r1 with
            | error e => simp [evalUnion, hv, hr1]
            | ok out =>
                rcases hu : evalUnion false fuel s1 fps rest with ⟨s2, r2⟩
                have hr2 : s2.root = s1.root := by
                  have h := ihU s1 fps rest
                  rw [hu] at h
                  exact h
                cases r2 with
                | error e => simp [evalUnion, hv, hu, hr2, hr1]
                | ok outs => simp [evalUnion, hv, hu, hr2, hr1]
      have hFF : ∀ s fps l r op,
          (evalFilterFps false (fuel + 1) s fps l r op).1.root = s.root := by
        intro s fps l r op
        cases fps with
        | nil => rfl
        | cons fp rest =>
            rcases hsel : Footprint.SelectAll s.root fp with e | allSel
            · simpa [evalFilterFps, hsel] using ihFF s rest l r op
            · rcases he : evalFilterElems false fuel s
                  (match Footprint.Expand s.root allSel with
                   | Except.error _ => []
                   | Except.ok es => es) l r op with ⟨s1, r1⟩
              have hr1 : s1.root = s.root := by
                have h := ihFE s (match Footprint.Expand s.root allSel with
                  | Except.error _ => []
                  | Except.ok es => es) l r op
                rw [he] at h
                exact h
              cases r1 with
              | error e => simp [evalFilterFps, hsel, he, hr1]
              | ok outs =>
                  rcases hf : evalFilterFps false fuel s1 rest l r op with ⟨s2, r2⟩
                  have hr2 : s2.root = s1.root := by
                    have h := ihFF s1 rest l r op
                    rw [hf] at h
                    exact h
                  cases r2 with
                  | error e => simp [evalFilterFps, hsel, he, hf, hr2, hr1]
                  | ok outs2 => simp [evalFilterFps, hsel, he, hf, hr2, hr1]
      have hF : ∀ s fps l r op,
          (evalFilter false (fuel + 1) s fps l r op).1.root = s.root := by
        intro s fps l r op
        exact ihFF s (expandFootprints s.root fps false) l r op
      have hFE : ∀ s elems l r op,
          (evalFilterElems false (fuel + 1) s elems l r op).1.root = s.root := by
        intro s elems l r op
        cases elems with
        | nil => rfl
        | cons e rest =>
            rcases h1 : evalFilterElement false fuel s e l r op with ⟨s1, r1⟩
            have hr1 : s1.root = s.root := by
              have h := ihFEl s e l r op
              rw [h1] at h
              exact h
            cases r1 with
            | error msg => simp [evalFilterElems, h1, hr1]
            | ok out =>
                rcases h2 : evalFilterElems false fuel s1 rest l r op with ⟨s2, r2⟩
                have hr2 : s2.root = s1.root := by
                  have h := ihFE s1 rest l r op
                  rw [h2] at h
                  exact h
                cases r2 with
                | error msg => simp [evalFilterElems, h1, h2, hr2, hr1]
                | ok outs => simp [evalFilterElems, h1, h2, hr2, hr1]
      have hFEl : ∀ s e l r op,
          (evalFilterElement false (fuel + 1) s e l r op).1.root = s.root := by
        intro s e0 l r op
        rcases h1 : evalList false fuel s [Footprint.LeaveItAsItIs e0] l with ⟨s1, r1⟩
        have hr1 : s1.root = s.root := by
          have h := ihL s [Footprint.LeaveItAsItIs e0] l
          rw [h1] at h
          exact h
        by_cases hop : op = "exists"
        · cases r1 <;> simpa [evalFilterElement, h1, hop] using hr1
        · cases r1 with
          | error e => simpa [evalFilterElement, h1, hop] using hr1
          | ok lefts0 =>
              rcases hexp : expandFootprints s1.root lefts0 true with
                _ | ⟨lf, _ | ⟨lf2, lrest⟩⟩
              · simpa [evalFilterElement, h1, hop, hexp] using hr1
              · rcases h2 : evalList false fuel s1 [Footprint.LeaveItAsItIs e0] r with
                  ⟨s2, r2⟩
                have hr2 : s2.root = s.root := by
                  have h := ihL s1 [Footprint.LeaveItAsItIs e0] r
                  rw [h2] at h
                  exact h.trans hr1
                cases r2 with
                | error e => simpa [evalFilterElement, h1, hop, hexp, h2] using hr2
                | ok rights0 =>
                    rcases hexp2 : expandFootprints s2.root rights0 true with
                      _ | ⟨rf, _ | ⟨rf2, rrest⟩⟩
                    · simpa [evalFilterElement, h1, hop, hexp, h2, hexp2] using hr2
                    · rcases hcmp : genericCompare op
                          ((Footprint.HolderVal s1.root lf).getD .null)
                          ((Footprint.HolderVal s2.root rf).getD .null) with
                        ⟨pass, err⟩
                      cases err with
                      | none =>
                          simpa [evalFilterElement, h1, hop, hexp, h2, hexp2, hcmp]
                            using hr2
                      | some e =>
                          simpa [evalFilterElement, h1, hop, hexp, h2, hexp2, hcmp]
                            using hr2
                    · simpa [evalFilterElement, h1, hop, hexp, h2, hexp2] using hr2
              · simpa [evalFilterElement, h1, hop, hexp] using hr1
      exact ⟨hW, hL, hU, hF, hFF, hFE, hFEl⟩

theorem FindResult_read_root (fuel : Nat) (doc : JValue) (ns : List Node) :
    (FindResult false fuel doc ns).1.root = .jarr [doc] := by
  cases ns with
  | nil => rfl
  | cons n rest =>
      cases n with
      | ListNode inner =>
          cases inner with
          | nil => rfl
          | cons i irest =>
              exact (eval_read_preserves_root fuel).2.1 ⟨.jarr [doc], []⟩ _ _
      | TextNode v => rfl
      | FieldNode v => rfl
      | WildcardNode => rfl
      | RecursiveNode => rfl
      | ArrayNode x y z => rfl
      | ArrayElementNode p => rfl
      | UnionNode cs => rfl
      | FilterNode l r op => rfl
      | IntNode v => rfl
      | FloatNode v => rfl
      | BoolNode v => rfl
      | IdentifierNode v => rfl

/-- C9: a `Get` invocation (write mode off) leaves the document completely
unchanged, whatever the compiled expression and the document: the holder
the evaluation finishes with is still exactly `[doc]`.  Every mutating path
(`EnforceObjectSelection`, `EnforceArraySelection`, field auto-creation) is
guarded by write mode, which the proof traverses handler by handler. -/
theorem Get_preserves_document (fuel : Nat) (doc : JValue) (ns : List Node) :
    (GetEval fuel doc ns).1.root = .jarr [doc] := by
  rcases h : FindResult false fuel doc ns with ⟨s, r⟩
  have hs : s.root = .jarr [doc] := by
    have h2 := FindResult_read_root fuel doc ns
    rw [h] at h2
    exact h2
  cases r <;> simp [GetEval, h, hs]

/-- C4: in write (set) mode, `evalArrayElement` on a negative or unknown
index returns a fatal error and leaves the state — document and warnings —
exactly as it was: the check precedes the enforcement loop and the
expansion. -/
theorem evalArrayElement_set_mode_invalid (s : EvalState) (fps : List Footprint)
    (p : ParamsEntry) (h : p.Value < 0 ∨ p.Known = false) :
    (evalArrayElement true s fps p).1 = s ∧
    ∃ e, (evalArrayElement true s fps p).2 = .error e := by
  by_cases hneg : p.Value < 0
  · refine ⟨by simp [evalArrayElement, hneg], ⟨"cannot use a negative index in set mode", ?_⟩⟩
    simp [evalArrayElement, hneg]
  · have hk : p.Known = false := by
      rcases h with h | h
      · exact absurd h hneg
      · exact h
    refine ⟨by simp [evalArrayElement, hneg, hk], ⟨"index unknown in set mode", ?_⟩⟩
    simp [evalArrayElement, hneg, hk]

theorem evalArrayElement_set_mode_invalid_witness :
    (((-1 : Int) < 0 ∨ (ParamsEntry.mk (-1) true false).Known = false) ∧
      (evalArrayElement true ⟨.null, []⟩ [] ⟨-1, true, false⟩).1 = ⟨.null, []⟩ ∧
      ∃ e, (evalArrayElement true ⟨.null, []⟩ [] ⟨-1, true, false⟩).2 = .error e) :=
  ⟨Or.inl (by decide),
    evalArrayElement_set_mode_invalid ⟨.null, []⟩ [] ⟨-1, true, false⟩
      (Or.inl (by decide))⟩

/-- C2: the claim holds for `MapFootprint` and `ArrayFootprint` but fails
for `NonRefFootprint`: with the leave-as-is flag set, the map and array
variants expand to exactly `[self]` with the flag cleared and no error,
while the non-ref variant returns the error
`non-reference foot print cannot be expand`, because the Go method clears
the flag BEFORE testing it, leaving its `[self]` branch unreachable.  The
empty-selection clause holds for the two variants that have a selection. -/
theorem expand_leave_as_is_nonref_diverges :
    (NonRefFootprint.Expand ((NonRefFootprint.mk false (.jint 42)).LeaveItAsItIs) =
      .error "non-reference foot print cannot be expand") ∧
    (∀ (root : JValue) (m : MapFootprint),
      (m.LeaveItAsItIs).Expand root = .ok [.mapFp { m with leaveItAsItIs := false }]) ∧
    (∀ (root : JValue) (a : ArrayFootprint),
      (a.LeaveItAsItIs).Expand root = .ok [.arrayFp { a with leaveItAsItIs := false }]) ∧
    (∀ (root : JValue) (m : MapFootprint), m.leaveItAsItIs = false →
      m.SelectionKeys = [] → m.Expand root = .ok []) ∧
    (∀ (root : JValue) (a : ArrayFootprint), a.leaveItAsItIs = false →
      a.SelectionIndexes = [] → a.Expand root = .ok []) := by
  refine ⟨rfl, ?_, ?_, ?_, ?_⟩
  · intro root m
    simp [MapFootprint.Expand, MapFootprint.LeaveItAsItIs]
  · intro root a
    simp [ArrayFootprint.Expand, ArrayFootprint.LeaveItAsItIs]
  · intro root m h1 h2
    simp [MapFootprint.Expand, h1, h2]
  · intro root a h1 h2
    simp [ArrayFootprint.Expand, h1, h2]

theorem expand_leave_as_is_nonref_diverges_witness :
    (NonRefFootprint.Expand ((NonRefFootprint.mk false (.jint 42)).LeaveItAsItIs) =
      .error "non-reference foot print cannot be expand") ∧
    ((MapFootprint.mk false [] [] false).LeaveItAsItIs.Expand .null =
      .ok [.mapFp ⟨false, [], [], false⟩]) ∧
    ((MapFootprint.mk false [] [] false).Expand .null = .ok []) :=
  ⟨(expand_leave_as_is_nonref_diverges).1,
    (expand_leave_as_is_nonref_diverges).2.1 .null ⟨false, [], [], false⟩,
    (expand_leave_as_is_nonref_diverges).2.2.2.1 .null ⟨false, [], [], false⟩ rfl rfl⟩

/-- C3: per candidate element of a comparison filter (operator other than
`exists`): a side that yields zero footprints after expansion
(`expandFootprints _ true`) skips the element with no error (`ok none`, and
the loop conjuncts show a skipped element contributes nothing while
evaluation continues, whereas an element error aborts the whole loop);
a side that yields more than one footprint is the hard error
`can only compare one element at a time`. -/
theorem evalFilter_compare_arity (wm : Bool) (fuel : Nat) (s : EvalState)
    (el : Footprint) (l r : List Node) (op : String) (hop : op ≠ "exists") :
    (∀ s1 lefts, evalList wm fuel s [el.LeaveItAsItIs] l = (s1, .ok lefts) →
      (expandFootprints s1.root lefts true = [] →
        evalFilterElement wm (fuel + 1) s el l r op = (s1, .ok none)) ∧
      (2 ≤ (expandFootprints s1.root lefts true).length →
        evalFilterElement wm (fuel + 1) s el l r op =
          (s1, .error "can only compare one element at a time")) ∧
      (∀ lf, expandFootprints s1.root lefts true = [lf] →
        ∀ s2 rights, evalList wm fuel s1 [el.LeaveItAsItIs] r = (s2, .ok rights) →
          (expandFootprints s2.root rights true = [] →
            evalFilterElement wm (fuel + 1) s el l r op = (s2, .ok none)) ∧
          (2 ≤ (expandFootprints s2.root rights true).length →
            evalFilterElement wm (fuel + 1) s el l r op =
              (s2, .error "can only compare one element at a time")))) ∧
    (∀ rest s1, evalFilterElement wm fuel s el l r op = (s1, .ok none) →
      evalFilterElems wm (fuel + 1) s (el :: rest) l r op =
        evalFilterElems wm fuel s1 rest l r op) ∧
    (∀ rest s1 e, evalFilterElement wm fuel s el l r op = (s1, .error e) →
      evalFilterElems wm (fuel + 1) s (el :: rest) l r op = (s1, .error e)) := by
  refine ⟨?_, ?_, ?_⟩
  · intro s1 lefts h1
    refine ⟨?_, ?_, ?_⟩
    · intro hexp
      simp [evalFilterElement, h1, hop, hexp]
    · intro hlen
      rcases hexp : expandFootprints s1.root lefts true with _ | ⟨a, _ | ⟨b, t⟩⟩
      · rw [hexp] at hlen
        simp at hlen
      · rw [hexp] at hlen
        simp at hlen
      · simp [evalFilterElement, h1, hop, hexp]
    · intro lf hexp s2 rights h2
      refine ⟨?_, ?_⟩
      · intro hexp2
        simp [evalFilterElement, h1, hop, hexp, h2, hexp2]
      · intro hlen2
        rcases hexp2 : expandFootprints s2.root rights true with _ | ⟨a, _ | ⟨b, t⟩⟩
        · rw [hexp2] at hlen2
          simp at hlen2
        · rw [hexp2] at hlen2
          simp at hlen2
        · simp [evalFilterElement, h1, hop, hexp, h2, hexp2]
  · intro rest s1 h
    rcases h2 : evalFilterElems wm fuel s1 rest l r op with ⟨s2, r2⟩
    cases r2 <;> simp [evalFilterElems, h, h2]
  · intro rest s1 e h
    simp [evalFilterElems, h]

theorem evalFilter_compare_arity_witness :
    ("==" ≠ "exists") ∧
    evalList false 5 ⟨.jarr [.jint 1], []⟩
      [(Footprint.nonRefFp ⟨false, .jint 7⟩).LeaveItAsItIs] [Node.FieldNode "x"] =
      (⟨.jarr [.jint 1], []⟩, .ok []) ∧
    evalFilterElement false 6 ⟨.jarr [.jint 1], []⟩
      (Footprint.nonRefFp ⟨false, .jint 7⟩) [Node.FieldNode "x"] [] "==" =
      (⟨.jarr [.jint 1], []⟩, .ok none) := by
  refine ⟨by decide, rfl, ?_⟩
  exact ((evalFilter_compare_arity false 5 ⟨.jarr [.jint 1], []⟩
    (Footprint.nonRefFp ⟨false, .jint 7⟩) [Node.FieldNode "x"] [] "=="
    (by decide)).1 ⟨.jarr [.jint 1], []⟩ [] rfl).1 rfl

/-- C6 counterexample: in read mode, a footprint whose holder dereferences
to a non-object (here the array `[0, 1]`) is dropped from `evalField`'s
result with NO error and NO warning: the returned state still has an empty
warning list, contradicting the claim that a warning is appended. -/
theorem evalField_nonobject_appends_no_warning :
    evalField false ⟨.jarr [.jint 0, .jint 1], []⟩
        [.arrayFp ⟨false, [], [⟨0, ⟨false, -1⟩⟩], ⟨false, 0⟩⟩] "key" =
      (⟨.jarr [.jint 0, .jint 1], []⟩, .ok []) := rfl

/-- Bool test for "the holder dereferences to an object". -/
def holderIsObj (root : JValue) (fp : Footprint) : Bool :=
  match fp.HolderVal root with
  | some (.jobj _) => true
  | _ => false

/-- C6 amended: a footprint whose holder dereferences to a non-object is
dropped silently — no output footprint, no error, and no warning (the Go
error return at that point is commented out and nothing else runs); the
read-mode warning `cannot find the field` is appended only when the holder
IS an object that lacks the field. -/
theorem evalField_nonobject_skips_silently (s : EvalState) (fp : Footprint)
    (name : String) :
    (holderIsObj s.root fp = false → evalFieldOne false name s fp = (s, [])) ∧
    (∀ p es, fpRefPath fp = some p → pathGet s.root p = some (.jobj es) →
      objGet es name = none →
      evalFieldOne false name s fp =
        ({ s with warnings := s.warnings ++ ["cannot find the field: " ++ name] },
         [])) := by
  constructor
  · intro h
    cases fp with
    | nonRefFp n => rfl
    | mapFp m =>
        simp only [holderIsObj, Footprint.HolderVal] at h
        simp only [evalFieldOne, fpRefPath]
        rcases hp : pathGet s.root m.Ref with _ | v
        · simp [hp]
        · rw [hp] at h
          cases v <;> simp_all
    | arrayFp a =>
        simp only [holderIsObj, Footprint.HolderVal] at h
        simp only [evalFieldOne, fpRefPath]
        rcases hp : pathGet s.root a.Ref with _ | v
        · simp [hp]
        · rw [hp] at h
          cases v <;> simp_all
  · intro p es hp hres hkey
    cases fp with
    | nonRefFp n => simp [fpRefPath] at hp
    | mapFp m =>
        simp only [fpRefPath, Option.some.injEq] at hp
        subst hp
        simp [evalFieldOne, fpRefPath, hres, hkey]
    | arrayFp a =>
        simp only [fpRefPath, Option.some.injEq] at hp
        subst hp
        simp [evalFieldOne, fpRefPath, hres, hkey]

theorem evalField_nonobject_skips_silently_witness :
    (holderIsObj (JValue.jarr [.jint 0, .jint 1])
        (.arrayFp ⟨false, [], [⟨0, ⟨false, -1⟩⟩], ⟨false, 0⟩⟩) = false) ∧
    evalFieldOne false "key" ⟨.jarr [.jint 0, .jint 1], []⟩
        (.arrayFp ⟨false, [], [⟨0, ⟨false, -1⟩⟩], ⟨false, 0⟩⟩) =
      (⟨.jarr [.jint 0, .jint 1], []⟩, []) :=
  ⟨rfl,
    (evalField_nonobject_skips_silently ⟨.jarr [.jint 0, .jint 1], []⟩
      (.arrayFp ⟨false, [], [⟨0, ⟨false, -1⟩⟩], ⟨false, 0⟩⟩) "key").1 rfl⟩

/-- C8 counterexample: `evalInt` over ONE incoming footprint whose
selection holds two keys returns TWO literal footprints — the literal
handlers expand the incoming set first, so the result length matches the
expansion, not the incoming sequence (length 2 versus length 1 here). -/
theorem evalInt_not_same_length_as_input :
    evalInt ⟨.jobj [("a", .jint 1), ("b", .jint 2)], []⟩
        [.mapFp ⟨false, [], [⟨"a", ⟨false, -1⟩⟩, ⟨"b", ⟨false, -1⟩⟩], false⟩] 5 =
      (⟨.jobj [("a", .jint 1), ("b", .jint 2)], []⟩,
        .ok [.nonRefFp ⟨false, .jint 5⟩, .nonRefFp ⟨false, .jint 5⟩]) ∧
    ([Footprint.nonRefFp ⟨false, .jint 5⟩, .nonRefFp ⟨false, .jint 5⟩].length ≠
      [Footprint.mapFp ⟨false, [], [⟨"a", ⟨false, -1⟩⟩, ⟨"b", ⟨false, -1⟩⟩], false⟩].length) :=
  ⟨rfl, by decide⟩

/-- C8 amended: each literal handler returns one `NonRefFootprint` holding
the literal per footprint in `expandFootprints fps false` — the EXPANSION
of the incoming sequence — so the result's length equals the expansion's
length (not, in general, `fps.length`; a footprint whose expansion is empty
or fails contributes nothing). -/
theorem evalLiterals_one_per_expanded_footprint (s : EvalState)
    (fps : List Footprint) (n : Int) (q : Rat) (b : Bool) :
    evalInt s fps n =
      (s, .ok ((expandFootprints s.root fps false).map fun _ =>
        .nonRefFp ⟨false, .jint n⟩)) ∧
    evalFloat s fps q =
      (s, .ok ((expandFootprints s.root fps false).map fun _ =>
        .nonRefFp ⟨false, .jfloat q⟩)) ∧
    evalBool s fps b =
      (s, .ok ((expandFootprints s.root fps false).map fun _ =>
        .nonRefFp ⟨false, .jbool b⟩)) :=
  ⟨rfl, rfl, rfl⟩

/-- C5 counterexample: write-mode `evalArray` on the slice `[5:3]` over a
selected empty-array child grows the child to length 3 (the END value),
not `max(start, end) = 5` as the claim states. -/
theorem evalArray_write_size_not_max :
    (evalArray true ⟨.jarr [.jarr []], []⟩
        [.arrayFp ⟨false, [], [⟨0, ⟨false, -1⟩⟩], ⟨false, 0⟩⟩]
        ⟨5, true, false⟩ ⟨3, true, false⟩ ⟨0, false, false⟩).1.root =
      .jarr [.jarr [.null, .null, .null]] ∧
    max (5 : Int) 3 = 5 ∧ ((3 : Int) ≠ 5) :=
  ⟨rfl, rfl, by decide⟩

/-- C5 amended, part 1 target: the size write-mode `evalArray` enforces is
the END value when the end parameter is known, else (coerced) start `+ 1`,
with the all-zero triple (wildcard) forcing `-1` — not `max(start, end)`. -/
def evalArraySizeSpec (x y z : ParamsEntry) : Int :=
  let xv : Int := if x.Known then x.Value else 0
  if xv = 0 ∧ y.Value = 0 ∧ z.Value = 0 then -1
  else if y.Known then y.Value else xv + 1

/-- C5 amended: (1) the write-mode enforcement size of a slice node is
`evalArraySizeSpec` (end when known, else coerced start `+ 1`, `-1` for the
all-zero wildcard triple); (2) the document effect of write-mode
`evalArray` is exactly `EnforceArraySelection` at that size over the
incoming footprints (the subsequent expansion and index loop never touch
the document); (3) the document effect of write-mode `evalArrayElement` on
a valid single index `i` is exactly `EnforceArraySelection (i+1)`;
(4) enforcement on a selected index whose child is an array shorter than
`size` grows it with exactly `size - length` nulls appended. -/
theorem evalArray_write_enforcement (s : EvalState) (fps : List Footprint)
    (x y z p : ParamsEntry) :
    ((evalArrayTail x y z).2 = evalArraySizeSpec x y z) ∧
    ((evalArray true s fps x y z).1.root =
      (enforceArrAll (evalArraySizeSpec x y z) s.root fps).1) ∧
    (¬p.Value < 0 → p.Known = true →
      (evalArrayElement true s fps p).1.root =
        (enforceArrAll (p.Value + 1) s.root fps).1) ∧
    (∀ (root : JValue) (refPath : List JStep) (si : SelectionIndex)
        (xs ys : List JValue) (size : Int),
      pathGet root refPath = some (.jarr xs) →
      0 ≤ si.Index →
      arrGet xs si.Index.toNat = some (.jarr ys) →
      (ys.length : Int) < size → size ≠ -1 →
      enforceArrayIdxGo size refPath root [si] =
        (pathSet root (refPath ++ [.idx si.Index.toNat])
           (.jarr (ys ++ List.replicate (size - (ys.length : Int)).toNat .null)),
         [{ si with vinfo := { si.vinfo with RealSize := (ys.length : Int) } }],
         none)) := by
  have htail : (evalArrayTail x y z).2 = evalArraySizeSpec x y z := by
    simp only [evalArrayTail, evalArraySizeSpec]
    cases hx : x.Known <;> cases hy : y.Known <;> simp [hx, hy]
  refine ⟨htail, ?_, ?_, ?_⟩
  · rw [← htail]
    simp only [evalArray, if_pos rfl]
    rcases hr : enforceArrAll (evalArrayTail x y z).2 s.root fps with ⟨root1, fps1, err⟩
    cases err with
    | some e => simp [hr]
    | none => simp [hr, evalArrayLoop_root]
  · intro hneg hk
    simp only [evalArrayElement, if_pos rfl, if_neg hneg, hk]
    rcases hr : enforceArrAll (p.Value + 1) s.root fps with ⟨root1, fps1, err⟩
    cases err with
    | some e => simp [hr]
    | none => simp [hr, evalArrayElementLoop_root]
  · intro root refPath si xs ys size hres hnn hchild hlen hsize
    have hlt : si.Index.toNat < xs.length := by
      have := List.get?_eq_some.mp hchild
      exact this.1
    have hguard : ¬(si.Index < 0 ∨ si.Index > (xs.length : Int)) := by
      omega
    simp only [enforceArrayIdxGo, hres, hguard, if_false, hchild]
    simp [hsize, hlen, enforceArrayIdxGo]

theorem evalArray_write_enforcement_witness :
    (pathGet (JValue.jarr [.jarr []]) [] = some (.jarr [.jarr []])) ∧
    ((0 : Int) ≤ 0) ∧
    (arrGet [JValue.jarr []] (Int.toNat 0) = some (.jarr [])) ∧
    ((([] : List JValue).length : Int) < 3) ∧ ((3 : Int) ≠ -1) ∧
    enforceArrayIdxGo 3 [] (.jarr [.jarr []]) [⟨0, ⟨false, -1⟩⟩] =
      (.jarr [.jarr [.null, .null, .null]], [⟨0, ⟨false, 0⟩⟩], none) := by
  refine ⟨rfl, by decide, rfl, by decide, by decide, ?_⟩
  have h := (evalArray_write_enforcement ⟨.null, []⟩ []
    ⟨0, false, false⟩ ⟨0, false, false⟩ ⟨0, false, false⟩
    ⟨0, false, false⟩).2.2.2 (.jarr [.jarr []]) [] ⟨0, ⟨false, -1⟩⟩
    [.jarr []] [] 3 rfl (by decide) rfl (by decide) (by decide)
  simpa using h

/-- Named characters that the scanner treats specially (defined via code
points to keep the source free of delicate literals). -/
def braceL : Char := Char.ofNat 123

/-- Closing brace. -/
def braceR : Char := Char.ofNat 125

/-- Single quote. -/
def quoteS : Char := Char.ofNat 39

/-- Double quote. -/
def quoteD : Char := Char.ofNat 34

/-- Backslash. -/
def bslash : Char := Char.ofNat 92

/-- Newline. -/
def nlChar : Char := Char.ofNat 10

/-- Carriage return. -/
def crChar : Char := Char.ofNat 13

/-- Horizontal tab. -/
def tabChar : Char := Char.ofNat 9

/-- Scanner state of the `Parser` struct: the input (runes are modelled as
`Char`s, and positions count runes where Go counts bytes — identical on the
ASCII inputs the verified statements use), the cursor `pos`, the token
start `start`, and the last rune width (0 after reading eof, so that
`backup` after eof is a no-op, as in Go). -/
structure PState where
  input : List Char
  pos : Nat
  start : Nat
  width : Nat
  deriving Repr, DecidableEq

/-- `next`: return the next rune (`none` models Go's `eof`) and advance. -/
def pNext (p : PState) : Option Char × PState :=
  match p.input.get? p.pos with
  | some c => (some c, { p with pos := p.pos + 1, width := 1 })
  | none => (none, { p with width := 0 })

/-- `peek`: `next` followed by `backup` — the state is unchanged. -/
def pPeek (p : PState) : Option Char := (pNext p).1

/-- `backup`: step back by the last width. -/
def pBackup (p : PState) : PState := { p with pos := p.pos - p.width }

/-- `consumeText`: the scanned text since the last consume, and the state
with `start` advanced. -/
def consumeText (p : PState) : List Char × PState :=
  ((p.input.drop p.start).take (p.pos - p.start), { p with start := p.pos })

/-- `isSpace` from the parser. -/
def isSpace (r : Char) : Bool := r = ' ' ∨ r = tabChar

/-- `isEndOfLine` from the parser. -/
def isEndOfLine (r : Char) : Bool := r = crChar ∨ r = nlChar

/-- `isTerminator` from the parser (eof — `none` — is a terminator). -/
def isTerminator (r : Option Char) : Bool :=
  match r with
  | none => true
  | some c =>
      isSpace c ∨ isEndOfLine c ∨
      c = '.' ∨ c = ',' ∨ c = '[' ∨ c = ']' ∨ c = '$' ∨ c = '@' ∨
      c = braceL ∨ c = braceR

/-- `isAlphaNumeric` from the parser: underscore, letter or digit
(`unicode.IsLetter` is modelled by ASCII `isAlpha`; all verified inputs are
ASCII). -/
def isAlphaNumeric (r : Option Char) : Bool :=
  match r with
  | none => false
  | some c => c = '_' ∨ c.isAlpha ∨ c.isDigit

/-- `isBool` from the parser. -/
def isBool (s : List Char) : Bool := s = "true".data ∨ s = "false".data

/-- `strconv.Atoi` on the scanned text: optional sign then one or more
digits, nothing else (overflow is not modelled; the evaluator's behavior on
the claims' inputs does not reach it). -/
def atoiChars (s : List Char) : Option Int :=
  let (sgn, ds) : Int × List Char :=
    match s with
    | c :: rest =>
        if c = '-' then (-1, rest) else if c = '+' then (1, rest) else (1, s)
    | [] => (1, [])
  if ds ≠ [] ∧ ds.all (·.isDigit) then
    some (sgn * (ds.foldl (fun a c => a * 10 + ((c.toNat : Int) - 48)) 0))
  else none

/-- `strconv.ParseFloat` restricted to the shapes `parseNumber` can ever
hand it (optional sign, digits and at most one dot, no exponent — the
number scanner stops at anything else). -/
def parseFloatChars (s : List Char) : Option Rat :=
  let (sgn, s1) : Rat × List Char :=
    match s with
    | c :: rest =>
        if c = '-' then (-1, rest) else if c = '+' then (1, rest) else (1, s)
    | [] => (1, [])
  match s1.splitOn '.' with
  | [ip] =>
      if ip ≠ [] ∧ ip.all (·.isDigit) then
        some (sgn * ((ip.foldl (fun a c => a * 10 + (c.toNat - 48)) 0 : Nat) : Rat))
      else none
  | [ip, fp] =>
      if (ip ++ fp) ≠ [] ∧ (ip ++ fp).all (·.isDigit) then
        some (sgn * (((ip ++ fp).foldl (fun a c => a * 10 + (c.toNat - 48)) 0 : Nat) /
          ((10 : Rat) ^ fp.length)))
      else none
  | _ => none

/-- `findRune` from the parser: index of the first unescaped occurrence of
the target (`-1` becomes `none`). -/
def findRuneAux (target : Char) : List Char → Bool → Nat → Option Nat
  | [], _, _ => none
  | c :: rest, esc, i =>
      if c = target ∧ !esc then some i
      else if c = bslash ∧ !esc then findRuneAux target rest true (i + 1)
      else findRuneAux target rest false (i + 1)

/-- `splitByComma` from the parser: split on commas, jumping over balanced
quoted runs; an unmatched quote yields Go's `nil`, modelled as `[]`. -/
def splitByCommaAux : Nat → List Char → List Char → List (List Char) →
    Option (List (List Char))
  | 0, _, _, _ => none
  | _ + 1, [], cur, acc => some (acc ++ [cur])
  | fuel + 1, c :: rest, cur, acc =>
      if c = ',' then splitByCommaAux fuel rest [] (acc ++ [cur])
      else if c = quoteS ∨ c = quoteD then
        match findRuneAux c rest false 0 with
        | none => none
        | some j =>
            splitByCommaAux fuel (rest.drop (j + 1)) (cur ++ c :: rest.take (j + 1)) acc
      else splitByCommaAux fuel rest (cur ++ [c]) acc

/-- `splitByComma` driver (`[]` is Go's `nil` result). -/
def splitByComma (str : List Char) : List (List Char) :=
  (splitByCommaAux (str.length + 1) str [] []).getD []

/-- The `dictKeyRex` regex `^['\x22](.*)['\x22]$`: first and last characters
each a quote of either kind, the greedy middle group (which `.` forbids
from containing a newline) is the capture. -/
def dictKeyMatch (text : List Char) : Option (List Char) :=
  match text.head?, text.getLast? with
  | some f, some l =>
      if 2 ≤ text.length ∧ (f = quoteS ∨ f = quoteD) ∧ (l = quoteS ∨ l = quoteD) ∧
          ((text.drop 1).dropLast.all (· ≠ nlChar)) then
        some ((text.drop 1).dropLast)
      else none
  | _, _ => none

/-- Maximal `-?[0-9]*` run and the remainder. -/
def takeSignedDigits : List Char → List Char × List Char
  | [] => ([], [])
  | c :: rest =>
      if c = '-' then
        let d := rest.takeWhile (·.isDigit)
        (c :: d, rest.drop d.length)
      else
        let d := (c :: rest).takeWhile (·.isDigit)
        (d, (c :: rest).drop d.length)

/-- The `sliceOperatorRex` regex `^(-?[0-9]*)(:-?[0-9]*)?(:-?[0-9]*)?$`:
the three capture groups (groups 2 and 3 keep their leading `:`, an absent
group is the empty string, as Go's `FindStringSubmatch` reports it). -/
def sliceRexMatch (text : List Char) :
    Option (List Char × List Char × List Char) :=
  let g1r := takeSignedDigits text
  let g2r : List Char × List Char :=
    match g1r.2 with
    | c :: rest =>
        if c = ':' then
          let dr := takeSignedDigits rest
          (c :: dr.1, dr.2)
        else ([], g1r.2)
    | [] => ([], [])
  let g3r : List Char × List Char :=
    match g2r.2 with
    | c :: rest =>
        if c = ':' then
          let dr := takeSignedDigits rest
          (c :: dr.1, dr.2)
        else ([], g2r.2)
    | [] => ([], [])
  if g3r.2 = [] then some (g1r.1, g2r.1, g3r.1) else none

/-- The filter tri-split regex `^([^!<>=]+)([!<>=]+)(.+?)$`: group 1 is the
(non-empty) run up to the first operator character, group 2 the operator
run, group 3 the (non-empty) lazy rest; when the operator run extends to
the end of the text, backtracking surrenders its last character to group 3. -/
def filterRexMatch (text : List Char) :
    Option (List Char × List Char × List Char) :=
  let isOp : Char → Bool := fun c => c = '!' ∨ c = '<' ∨ c = '>' ∨ c = '='
  let g1 := text.takeWhile (fun c => !isOp c)
  let rest := text.drop g1.length
  let ops := rest.takeWhile isOp
  let tail := rest.drop ops.length
  if g1.length = 0 ∨ ops.length = 0 then none
  else if tail ≠ [] then some (g1, ops, tail)
  else if 2 ≤ ops.length then some (g1, ops.dropLast, [ops.getLast!])
  else none

/-- Space trim of `strings.Trim(str, " ")`. -/
def trimSpacesOnly (s : List Char) : List Char :=
  ((s.dropWhile (· = ' ')).reverse.dropWhile (· = ' ')).reverse

/-- `strings.TrimSpace` (ASCII whitespace suffices here). -/
def trimSpace (s : List Char) : List Char :=
  let ws : Char → Bool := fun c => isSpace c ∨ isEndOfLine c
  ((s.dropWhile ws).reverse.dropWhile ws).reverse

/-- `UnquoteExtend` from the parser: like `strconv.Unquote` but accepting
single quotes.  The escape loop models `strconv.UnquoteChar` for the
single-character escapes; its numeric forms (`\xNN`, `\uNNNN`, octal) are
reported as errors here — no verified statement exercises them. -/
def unquoteLoop (q : Char) : Nat → List Char → Except String (List Char)
  | 0, _ => .error "fuel exhausted"
  | _ + 1, [] => .ok []
  | fuel + 1, c :: rest =>
      if c = q then .error "invalid syntax"
      else if c = bslash then
        match rest with
        | [] => .error "invalid syntax"
        | e :: rest2 =>
            let dec : Except String Char :=
              if e = 'a' then .ok (Char.ofNat 7)
              else if e = 'b' then .ok (Char.ofNat 8)
              else if e = 'f' then .ok (Char.ofNat 12)
              else if e = 'n' then .ok nlChar
              else if e = 'r' then .ok crChar
              else if e = 't' then .ok tabChar
              else if e = 'v' then .ok (Char.ofNat 11)
              else if e = bslash then .ok bslash
              else if e = q then .ok q
              else .error "escape form not modelled"
            match dec with
            | .error msg => .error msg
            | .ok d =>
                match unquoteLoop q fuel rest2 with
                | .error msg => .error msg
                | .ok ds => .ok (d :: ds)
      else
        match unquoteLoop q fuel rest with
        | .error msg => .error msg
        | .ok ds => .ok (c :: ds)

/-- `UnquoteExtend` driver. -/
def UnquoteExtend (s : List Char) : Except String (List Char) :=
  if s.length < 2 then .error "invalid syntax"
  else
    match s.head?, s.getLast? with
    | some q, some l =>
        if q ≠ l then .error "invalid syntax"
        else if q ≠ quoteD ∧ q ≠ quoteS then .error "invalid syntax"
        else
          let body := (s.drop 1).dropLast
          if !body.contains bslash ∧ !body.contains q then .ok body
          else unquoteLoop q (body.length + 1) body
    | _, _ => .error "invalid syntax"

/-- `findNextRune` from the parser: skip to just past the next unescaped
occurrence of the target rune, eof being an error. -/
def findNextRune (target : Char) : Nat → PState → Bool → Except String PState
  | 0, _, _ => .error "fuel exhausted"
  | fuel + 1, p, escapeMode =>
      match pNext p with
      | (none, _) => .error "cannot find the next rune"
      | (some ch, p1) =>
          if ch = target ∧ !escapeMode then .ok p1
          else if ch = bslash ∧ !escapeMode then findNextRune target fuel p1 true
          else findNextRune target fuel p1 false

/-- Bracket-scan loop of `parseArray`: advance to the closing `]`, jumping
over quoted runs; eof or newline is `unterminated array`. -/
def parseArrayScan : Nat → PState → Except String PState
  | 0, _ => .error "fuel exhausted"
  | fuel + 1, p =>
      match pNext p with
      | (none, _) => .error "unterminated array"
      | (some ch, p1) =>
          if ch = nlChar then .error "unterminated array"
          else if ch = quoteD ∨ ch = quoteS then
            match findNextRune ch (p1.input.length + 1) p1 false with
            | .error e => .error e
            | .ok p2 => parseArrayScan fuel p2
          else if ch = ']' then .ok p1
          else parseArrayScan fuel p1

/-- Scan loop of `parseFilter`: advance past the closing `)`, tracking at
most one balanced pair of matching quotes (escape-aware through the raw
`input[pos-2]` byte check Go performs). -/
def parseFilterScan : Nat → PState → Bool → Bool → Char → Except String PState
  | 0, _, _, _, _ => .error "fuel exhausted"
  | fuel + 1, p, begun, ended, pair =>
      match pNext p with
      | (none, _) => .error "unterminated filter"
      | (some ch, p1) =>
          if ch = nlChar then .error "unterminated filter"
          else if ch = quoteD ∨ ch = quoteS then
            if !begun then parseFilterScan fuel p1 true ended ch
            else if p1.input.get? (p1.pos - 2) ≠ some bslash ∧ ch = pair then
              parseFilterScan fuel p1 begun true pair
            else parseFilterScan fuel p1 begun ended pair
          else if ch = ')' then
            if begun = ended then .ok p1
            else parseFilterScan fuel p1 begun ended pair
          else parseFilterScan fuel p1 begun ended pair

/-- Scan loop of `parseQuote`: advance past the closing quote (the raw
`input[pos-2]` escape check again), eof or newline erroring. -/
def parseQuoteScan (endq : Char) : Nat → PState → Except String PState
  | 0, _ => .error "fuel exhausted"
  | fuel + 1, p =>
      match pNext p with
      | (none, _) => .error "unterminated quoted string"
      | (some ch, p1) =>
          if ch = nlChar then .error "unterminated quoted string"
          else if ch = endq then
            if p1.input.get? (p1.pos - 2) ≠ some bslash then .ok p1
            else parseQuoteScan endq fuel p1
          else parseQuoteScan endq fuel p1

/-- The `for p.advance() {}` loop of `parseField`: scan to the next
unescaped terminator (a backslash keeps the following rune). -/
def fieldAdvance : Nat → PState → PState
  | 0, p => p
  | fuel + 1, p =>
      match pNext p with
      | (none, p1) => pBackup p1
      | (some ch, p1) =>
          if ch = bslash then fieldAdvance fuel (pNext p1).2
          else if isTerminator (some ch) then pBackup p1
          else fieldAdvance fuel p1

/-- Identifier scan loop of `parseIdentifier`. -/
def identScan : Nat → PState → PState
  | 0, p => p
  | fuel + 1, p =>
      match pNext p with
      | (c, p1) => if isTerminator c then pBackup p1 else identScan fuel p1

/-- Number scan loop of `parseNumber`: digits and dots. -/
def numScan : Nat → PState → PState
  | 0, p => p
  | fuel + 1, p =>
      match pNext p with
      | (none, p1) => pBackup p1
      | (some ch, p1) =>
          if ch ≠ '.' ∧ !ch.isDigit then pBackup p1 else numScan fuel p1

/-- One slice parameter of `parseArray`'s params loop (`isTail` marks
groups 2 and 3, which carry a leading `:` to strip; an empty group — or an
empty tail group after the strip — is `known=false` with value `0`). -/
def paramEntryOf (isTail : Bool) (g : List Char) : Except String ParamsEntry :=
  if g ≠ [] then
    let g1 := if isTail then g.drop 1 else g
    if isTail ∧ g1 = [] then .ok ⟨0, false, false⟩
    else
      match atoiChars g1 with
      | none => .error "array index is not a number"
      | some v => .ok ⟨v, true, false⟩
  else .ok ⟨0, false, false⟩

/-- Whether the scanner, at its current position, is looking at the given
literal characters. -/
def strStartsWith (p : PState) (pre : List Char) : Bool :=
  List.isPrefixOf pre (p.input.drop p.pos)

mutual

/-- `parseText`: free text until a `braceL` delimiter becomes `TextNode`s
appended to the root; the delimiter hands over to `parseLeftDelim`. -/
def parseText (fuel : Nat) (p : PState) (root : List Node) :
    Except String (List Node) :=
  match fuel with
  | 0 => .error "fuel exhausted"
  | fuel + 1 =>
      if strStartsWith p [braceL] then
        if p.pos > p.start then
          let tp := consumeText p
          parseLeftDelim fuel tp.2 (root ++ [.TextNode (String.mk tp.1)])
        else parseLeftDelim fuel p root
      else
        match pNext p with
        | (none, p1) =>
            if p1.pos > p1.start then
              .ok (root ++ [.TextNode (String.mk (consumeText p1).1)])
            else .ok root
        | (some _, p1) => parseText fuel p1 root

/-- `parseLeftDelim`: consume the brace, open a fresh inner list and parse
inside the action. -/
def parseLeftDelim (fuel : Nat) (p : PState) (root : List Node) :
    Except String (List Node) :=
  match fuel with
  | 0 => .error "fuel exhausted"
  | fuel + 1 =>
      let p1 := (consumeText { p with pos := p.pos + 1 }).2
      parseInsideAction fuel p1 root []

/-- `parseRightDelim`: consume the brace, seal the inner list onto the root
and resume free-text parsing. -/
def parseRightDelim (fuel : Nat) (p : PState) (root : List Node)
    (cur : List Node) : Except String (List Node) :=
  match fuel with
  | 0 => .error "fuel exhausted"
  | fuel + 1 =>
      let p1 := (consumeText { p with pos := p.pos + 1 }).2
      parseText fuel p1 (root ++ [.ListNode cur])

/-- `parseInsideAction`: the three special prefixes (the Go code probes
them in nondeterministic map order, but no input matches two at once),
then single-rune dispatch. -/
def parseInsideAction (fuel : Nat) (p : PState) (root : List Node)
    (cur : List Node) : Except String (List Node) :=
  match fuel with
  | 0 => .error "fuel exhausted"
  | fuel + 1 =>
      if strStartsWith p [braceR] then parseRightDelim fuel p root cur
      else if strStartsWith p ['[', '?', '('] then parseFilter fuel p root cur
      else if strStartsWith p ['.', '.'] then parseRecursive fuel p root cur
      else
        match pNext p with
        | (none, _) => .error "unclosed action"
        | (some ch, p1) =>
            if isEndOfLine ch then .error "unclosed action"
            else if ch = ' ' then parseInsideAction fuel (consumeText p1).2 root cur
            else if ch = '@' ∨ ch = '$' then
              parseInsideAction fuel (consumeText p1).2 root cur
            else if ch = '[' then parseArray fuel p1 root cur
            else if ch = quoteD ∨ ch = quoteS then parseQuote fuel p1 root cur ch
            else if ch = '.' then parseField fuel p1 root cur
            else if ch = '+' ∨ ch = '-' ∨ ch.isDigit then
              parseNumber fuel (pBackup p1) root cur
            else if isAlphaNumeric (some ch) then
              parseIdentifier fuel (pBackup p1) root cur
            else .error "unrecognized character in action"

/-- `parseIdentifier`: scan to a terminator; `true`/`false` become
`BoolNode`s, anything else an `IdentifierNode`. -/
def parseIdentifier (fuel : Nat) (p : PState) (root : List Node)
    (cur : List Node) : Except String (List Node) :=
  match fuel with
  | 0 => .error "fuel exhausted"
  | fuel + 1 =>
      let p1 := identScan (p.input.length + 1) p
      let tv := consumeText p1
      if isBool tv.1 then
        parseInsideAction fuel tv.2 root (cur ++ [.BoolNode (tv.1 = "true".data)])
      else
        parseInsideAction fuel tv.2 root (cur ++ [.IdentifierNode (String.mk tv.1)])

/-- `parseRecursive`: reject a recursive descent immediately following
another one, append the node, and chain straight into a field when an
alphanumeric rune follows. -/
def parseRecursive (fuel : Nat) (p : PState) (root : List Node)
    (cur : List Node) : Except String (List Node) :=
  match fuel with
  | 0 => .error "fuel exhausted"
  | fuel + 1 =>
      match cur.getLast? with
      | some Node.RecursiveNode => .error "invalid multiple recursive descent"
      | _ =>
          let p1 := (consumeText { p with pos := p.pos + 2 }).2
          let cur1 := cur ++ [Node.RecursiveNode]
          if isAlphaNumeric (pPeek p1) then parseField fuel p1 root cur1
          else parseInsideAction fuel p1 root cur1

/-- `parseNumber`: optional sign, then digits and dots; try integer first,
then float. -/
def parseNumber (fuel : Nat) (p : PState) (root : List Node)
    (cur : List Node) : Except String (List Node) :=
  match fuel with
  | 0 => .error "fuel exhausted"
  | fuel + 1 =>
      let p1 :=
        match pPeek p with
        | some c => if c = '+' ∨ c = '-' then (pNext p).2 else p
        | none => p
      let p2 := numScan (p1.input.length + 1) p1
      let tv := consumeText p2
      match atoiChars tv.1 with
      | some i => parseInsideAction fuel tv.2 root (cur ++ [.IntNode i])
      | none =>
          match parseFloatChars tv.1 with
          | some d => parseInsideAction fuel tv.2 root (cur ++ [.FloatNode d])
          | none => .error "cannot parse number"

/-- `parseArray`: scan to `]`, then classify the bracket text: wildcard,
quote-aware comma union (each piece re-parsed wrapped in brackets), dict
key, single index, or slice; otherwise `invalid array index`. -/
def parseArray (fuel : Nat) (p : PState) (root : List Node)
    (cur : List Node) : Except String (List Node) :=
  match fuel with
  | 0 => .error "fuel exhausted"
  | fuel + 1 =>
      match parseArrayScan (p.input.length + 1) p with
      | .error e => .error e
      | .ok p1 =>
          let tv := consumeText p1
          let text := (tv.1.drop 1).dropLast
          if text = ['*'] then
            parseInsideAction fuel tv.2 root (cur ++ [.WildcardNode])
          else
            let strs := splitByComma text
            if 1 < strs.length then
              match unionBuild fuel strs with
              | .error e => .error e
              | .ok children =>
                  parseInsideAction fuel tv.2 root (cur ++ [.UnionNode children])
            else
              let text1 := trimSpace text
              match dictKeyMatch text1 with
              | some inner =>
                  parseInsideAction fuel tv.2 root
                    (cur ++ [.FieldNode (String.mk inner)])
              | none =>
                  match sliceRexMatch text1 with
                  | none => .error "invalid array index"
                  | some (g1, g2, g3) =>
                      if g2 = [] ∧ g3 = [] then
                        if g1 = [] then
                          parseInsideAction fuel tv.2 root
                            (cur ++ [.ArrayElementNode ⟨0, false, false⟩])
                        else
                          match atoiChars g1 with
                          | none => .error "array index is not a number"
                          | some i =>
                              parseInsideAction fuel tv.2 root
                                (cur ++ [.ArrayElementNode ⟨i, true, false⟩])
                      else
                        match paramEntryOf false g1, paramEntryOf true g2,
                            paramEntryOf true g3 with
                        | .ok e0, .ok e1, .ok e2 =>
                            parseInsideAction fuel tv.2 root
                              (cur ++ [.ArrayNode e0 e1 e2])
                        | .error e, _, _ => .error e
                        | _, .error e, _ => .error e
                        | _, _, .error e => .error e

/-- Union loop of `parseArray`: each comma piece, space-trimmed, is
re-parsed wrapped in brackets via `parseAction`. -/
def unionBuild (fuel : Nat) (strs : List (List Char)) :
    Except String (List (List Node)) :=
  match fuel with
  | 0 => .error "fuel exhausted"
  | fuel + 1 =>
      match strs with
      | [] => .ok []
      | str :: rest =>
          match parseActionF fuel ('[' :: trimSpacesOnly str ++ [']']) with
          | .error e => .error e
          | .ok child =>
              match unionBuild fuel rest with
              | .error e => .error e
              | .ok children => .ok (child :: children)

/-- `parseAction`: parse a sub-expression wrapped in braces and strip the
outer list (the Go `p.Root = p.Root.Nodes[0].(*ListNode)` unwrap). -/
def parseActionF (fuel : Nat) (text : List Char) :
    Except String (List Node) :=
  match fuel with
  | 0 => .error "fuel exhausted"
  | fuel + 1 =>
      match parseText fuel ⟨braceL :: text ++ [braceR], 0, 0, 0⟩ [] with
      | .error e => .error e
      | .ok r =>
          match r with
          | Node.ListNode inner :: _ => .ok inner
          | _ => .error "panic: root node is not a list"

/-- `parseFilter`: scan past `)` (quote-aware), require `]`, strip `)]`,
then tri-split into LHS/operator/RHS (no split means the `exists` form),
re-parsing the sides via `parseAction`. -/
def parseFilter (fuel : Nat) (p : PState) (root : List Node)
    (cur : List Node) : Except String (List Node) :=
  match fuel with
  | 0 => .error "fuel exhausted"
  | fuel + 1 =>
      let p1 := (consumeText { p with pos := p.pos + 3 }).2
      match parseFilterScan (p1.input.length + 1) p1 false false ' ' with
      | .error e => .error e
      | .ok p2 =>
          match pNext p2 with
          | (some ch, p3) =>
              if ch ≠ ']' then .error "unclosed array expect ]"
              else
                let tv := consumeText p3
                let text := tv.1.dropLast.dropLast
                match filterRexMatch text with
                | none =>
                    match parseActionF fuel text with
                    | .error e => .error e
                    | .ok lhs =>
                        parseInsideAction fuel tv.2 root
                          (cur ++ [.FilterNode lhs [] "exists"])
                | some (gl, gop, gr) =>
                    match parseActionF fuel gl with
                    | .error e => .error e
                    | .ok lhs =>
                        match parseActionF fuel gr with
                        | .error e => .error e
                        | .ok rhs =>
                            parseInsideAction fuel tv.2 root
                              (cur ++ [.FilterNode lhs rhs (String.mk gop)])
          | (none, _) => .error "unclosed array expect ]"

/-- `parseQuote`: scan past the closing quote, unquote, and append a
`TextNode`. -/
def parseQuote (fuel : Nat) (p : PState) (root : List Node)
    (cur : List Node) (endq : Char) : Except String (List Node) :=
  match fuel with
  | 0 => .error "fuel exhausted"
  | fuel + 1 =>
      match parseQuoteScan endq (p.input.length + 1) p with
      | .error e => .error e
      | .ok p1 =>
          let tv := consumeText p1
          match UnquoteExtend tv.1 with
          | .error _ => .error "unquote string error"
          | .ok s =>
              parseInsideAction fuel tv.2 root (cur ++ [.TextNode (String.mk s)])

/-- `parseField`: scan the name to a terminator (`advance`), `*` becoming a
wildcard and anything else a `FieldNode` with backslashes removed. -/
def parseField (fuel : Nat) (p : PState) (root : List Node)
    (cur : List Node) : Except String (List Node) :=
  match fuel with
  | 0 => .error "fuel exhausted"
  | fuel + 1 =>
      let p1 := (consumeText p).2
      let p2 := fieldAdvance (p1.input.length + 1) p1
      let tv := consumeText p2
      if tv.1 = ['*'] then
        parseInsideAction fuel tv.2 root (cur ++ [.WildcardNode])
      else
        parseInsideAction fuel tv.2 root
          (cur ++ [.FieldNode (String.mk (tv.1.filter (· ≠ bslash)))])

end

/-- Fuel handed to the parser for a concrete input: ample for every run in
this file (each recursion step either consumes input or descends into a
strictly shorter wrapped sub-text). -/
def parseFuelFor (text : List Char) : Nat := (text.length + 16) * 8

/-- `Parse` from the parser (on an already brace-wrapped text). -/
def ParseGo (text : List Char) : Except String (List Node) :=
  parseText (parseFuelFor text) ⟨text, 0, 0, 0⟩ []

/-- `New` from the façade: wrap the expression in braces and parse; a parse
failure is reported as `cannot parse jsonpath string`. -/
def NewGo (expr : String) : Except String (List Node) :=
  match ParseGo (braceL :: expr.data ++ [braceR]) with
  | .error _ => .error "cannot parse jsonpath string"
  | .ok root => .ok root

/-- `New` + `Get`: compile the expression and evaluate it in read mode
against the document. -/
def GetRun (expr : String) (doc : JValue) :
    Except String (List (Option JValue)) :=
  match NewGo expr with
  | .error e => .error e
  | .ok root => (GetEval 1000 doc root).2

/-- C7 counterexample: compiling the EMPTY expression does NOT return a
parse error — `New` succeeds with a compiled (empty-list) path; the
rejection happens only later, in `FindResult`. -/
theorem new_empty_input_compiles : NewGo "" = .ok [.ListNode []] := rfl

/-- C7 amended: of the eight inputs, `$[key]`, `$.[key]`, `[two.some]` and
`$['single'quote']` are rejected at compile time; `$a`, `key` and `$. a`
compile (to identifier-bearing ASTs) and are rejected only at evaluation
time by `walk`'s default case (`unexpected Node`), and the empty input
compiles and is rejected only by `FindResult` (`cannot handle empty
expression`). -/
theorem parse_reject_split :
    NewGo "$[key]" = .error "cannot parse jsonpath string" ∧
    NewGo "$.[key]" = .error "cannot parse jsonpath string" ∧
    NewGo "[two.some]" = .error "cannot parse jsonpath string" ∧
    NewGo "$['single'quote']" = .error "cannot parse jsonpath string" ∧
    NewGo "$a" = .ok [.ListNode [.IdentifierNode "a"]] ∧
    GetRun "$a" (.jobj [("a", .jint 1)]) = .error "unexpected Node" ∧
    NewGo "key" = .ok [.ListNode [.IdentifierNode "key"]] ∧
    GetRun "key" (.jobj [("key", .jint 1)]) = .error "unexpected Node" ∧
    NewGo "$. a" = .ok [.ListNode [.FieldNode "", .IdentifierNode "a"]] ∧
    GetRun "$. a" (.jobj [("a", .jint 1)]) = .error "unexpected Node" ∧
    NewGo "" = .ok [.ListNode []] ∧
    GetRun "" (.jobj [("a", .jint 1)]) = .error "cannot handle empty expression" :=
  ⟨rfl, rfl, rfl, rfl, rfl, rfl, rfl, rfl, rfl, rfl, rfl, rfl⟩

/-- C10: a dot immediately followed by a field terminator parses into a
`FieldNode` with the empty name (shown for the terminators end-of-input,
`[`, and space), and `Get` with `$.` on an object document returns the
value stored under the key `""` when it exists and the empty result
otherwise. -/
theorem dot_before_terminator_empty_field :
    (NewGo "$." = .ok [.ListNode [.FieldNode ""]]) ∧
    (NewGo "$.[0]" =
      .ok [.ListNode [.FieldNode "", .ArrayElementNode ⟨0, true, false⟩]]) ∧
    (NewGo "$. a" = .ok [.ListNode [.FieldNode "", .IdentifierNode "a"]]) ∧
    (∀ es : List (String × JValue),
      GetRun "$." (.jobj es) =
        .ok (match objGet es "" with
             | some v => [some v]
             | none => [])) := by
  refine ⟨rfl, rfl, rfl, ?_⟩
  intro es
  have hstep : GetRun "$." (.jobj es) =
      (GetEval 1000 (.jobj es) [.ListNode [.FieldNode ""]]).2 := rfl
  rw [hstep]
  rcases hkey : objGet es "" with _ | v
  · simp [GetEval, FindResult, evalList, walk, evalField, evalFieldLoop,
      evalFieldOne, expandFootprints, Footprint.Expand, ArrayFootprint.Expand,
      MapFootprint.Expand, Footprint.SelectAll, ArrayFootprint.SelectAll,
      NewFootprint, pathGet, stepGet, arrGet, objGet, fpRefPath,
      Footprint.HolderVal, hkey]
  · cases v <;>
      simp [GetEval, FindResult, evalList, walk, evalField, evalFieldLoop,
        evalFieldOne, expandFootprints, Footprint.Expand, ArrayFootprint.Expand,
        MapFootprint.Expand, Footprint.SelectAll, ArrayFootprint.SelectAll,
        NewFootprint, pathGet, stepGet, arrGet, objGet, fpRefPath,
        Footprint.HolderVal, hkey]
